import Mathlib

/-!
# Verification of the momento memory-graph service

Shallow embedding of the graph pipeline of the `momento` repository:
the pydantic data model (`src/graph/models.py`), the entity and relation
repositories (`src/graph/repositories/*.py`), the extraction providers
(`src/graph/providers/*.py`), the extraction pipeline
(`src/graph/pipeline/extraction_runner.py`), the background dispatcher
(`src/graph/tasks/background.py`), the ingestion service
(`src/graph/services/entry_ingestion.py`) and the entity list endpoint
(`src/graph/routers.py`).

Conventions of the embedding:
* Python values are modelled by plain Lean data; stateful code threads an
  explicit store.
* Python exceptions are modelled by `Except PyErr`; the two error kinds the
  claims distinguish (`ExtractionProviderError` vs. pydantic
  `ValidationError` / other exceptions) are the two constructors of `PyErr`.
* JSON documents are the inductive `Json`; JSON numbers are modelled by
  `Rat`.  The standard-library `json.dumps`/`json.loads` pair is an external
  collaborator and is modelled by the `PyStr` type below: `PyStr.enc j`
  denotes the string `json.dumps(j)` and `PyStr.raw s` denotes a plain
  string `s` that is not a well-formed JSON document, so that
  `json.loads` succeeds exactly on `enc` values and returns the encoded
  document (a true property of the library on JSON-representable data).
* `uuid.uuid4()` / `datetime.utcnow()` draws are modelled by fixed default
  constants; UUIDs and datetimes are modelled as nonempty strings (Python's
  `UUID`/ISO parsing accepts exactly the canonical strings produced on dump,
  which is all the round-trip claims need).
-/

namespace Momento

/-- JSON documents, with numbers modelled as rationals.  Python dicts are
insertion-ordered association lists. -/
inductive Json where
  | null : Json
  | bool (b : Bool) : Json
  | num (q : Rat) : Json
  | str (s : String) : Json
  | arr (xs : List Json) : Json
  | obj (kvs : List (String × Json)) : Json

/-- A Python string value, as stored in a Neo4j string property.
`enc j` is the canonical `json.dumps` encoding of the document `j`;
`raw s` is a literal string that is not a well-formed JSON document
(corrupt storage, names, ISO timestamps, ...). -/
inductive PyStr where
  | enc (j : Json) : PyStr
  | raw (s : String) : PyStr

/-- Error kinds distinguished by the claims: `providerError` embeds
`ExtractionProviderError`, `validationError` embeds pydantic
`ValidationError` and other non-provider exceptions. -/
inductive PyErr where
  | providerError (msg : String) : PyErr
  | validationError (msg : String) : PyErr
deriving DecidableEq, Repr

/-- The closed `SystemLabel` vocabulary of `src/graph/models.py`. -/
inductive SystemLabel where
  | ENTRY | ENTITY | PERSON | LOCATION | ORGANIZATION
  | OBJECT | EVENT | CONCEPT | OBSERVATION
deriving DecidableEq, Repr

def SystemLabel.toStr : SystemLabel → String
  | .ENTRY => "ENTRY"
  | .ENTITY => "ENTITY"
  | .PERSON => "PERSON"
  | .LOCATION => "LOCATION"
  | .ORGANIZATION => "ORGANIZATION"
  | .OBJECT => "OBJECT"
  | .EVENT => "EVENT"
  | .CONCEPT => "CONCEPT"
  | .OBSERVATION => "OBSERVATION"

def SystemLabel.fromStr : String → Option SystemLabel
  | "ENTRY" => some .ENTRY
  | "ENTITY" => some .ENTITY
  | "PERSON" => some .PERSON
  | "LOCATION" => some .LOCATION
  | "ORGANIZATION" => some .ORGANIZATION
  | "OBJECT" => some .OBJECT
  | "EVENT" => some .EVENT
  | "CONCEPT" => some .CONCEPT
  | "OBSERVATION" => some .OBSERVATION
  | _ => none

/-- The `ContentFormat` enum of `src/graph/models.py`. -/
inductive ContentFormat where
  | text | markdown | html | json | other
deriving DecidableEq, Repr

def ContentFormat.toStr : ContentFormat → String
  | .text => "text"
  | .markdown => "markdown"
  | .html => "html"
  | .json => "json"
  | .other => "other"

def ContentFormat.fromStr : String → Option ContentFormat
  | "text" => some .text
  | "markdown" => some .markdown
  | "html" => some .html
  | "json" => some .json
  | "other" => some .other
  | _ => none

/-- Python `str.strip()` (ASCII whitespace). -/
def pyStrip (s : String) : String :=
  ⟨((s.data.dropWhile Char.isWhitespace).reverse.dropWhile Char.isWhitespace).reverse⟩

/-- Python `str.lower()` (ASCII). -/
def pyLower (s : String) : String := ⟨s.data.map Char.toLower⟩

/-- Python `str.upper()` (ASCII). -/
def pyUpper (s : String) : String := ⟨s.data.map Char.toUpper⟩

/-- Python `str.endswith(suf)`. -/
def strEndsWith (s suf : String) : Bool :=
  suf.data.reverse.isPrefixOf s.data.reverse

/-- UUID values, modelled as their canonical string form. -/
structure UUID where
  val : String
deriving DecidableEq, Repr

/-- Datetime values, modelled as their ISO-8601 string form. -/
structure DateTime where
  iso : String
deriving DecidableEq, Repr

/-- Models a `uuid.uuid4()` draw (fresh in Python, a fixed constant here). -/
def defaultUUID : UUID := ⟨"00000000-0000-4000-8000-000000000000"⟩

/-- Models a `datetime.utcnow()` draw (a fixed constant here). -/
def defaultDateTime : DateTime := ⟨"2024-01-01T00:00:00"⟩

/-- `ContentBlock` of `src/graph/models.py`. -/
structure ContentBlock where
  format : ContentFormat
  body : String
  metadata : List (String × Json)

/-- `MediaAttachment` of `src/graph/models.py` (`AnyUrl` modelled as a
nonempty string, without pydantic's URL normalization). -/
structure MediaAttachment where
  uri : String
  media_type : String
  title : Option String
  description : Option String
  metadata : List (String × Json)

/-- `EmbeddingVector` of `src/graph/models.py`. -/
structure EmbeddingVector where
  model : String
  vector : List Rat
  created_at : DateTime
  metadata : List (String × Json)

/-- `Observation` of `src/graph/models.py`. -/
structure Observation where
  id : UUID
  text : String
  source : Option String
  created_at : DateTime
  confidence : Option Rat
  metadata : List (String × Json)

/-- The `Entity` model of `src/graph/models.py`. -/
structure Entity where
  id : UUID
  external_id : Option String
  name : Option String
  summary : Option String
  labels : List String
  system_labels : List SystemLabel
  content : Option ContentBlock
  attachments : List MediaAttachment
  embedding : Option EmbeddingVector
  metadata : List (String × Json)
  observations : List Observation
  created_at : DateTime
  updated_at : DateTime

/-- The `normalize_labels` field validator of `Entity`
(`src/graph/models.py`): trim, drop blanks, deduplicate case-insensitively,
keep first occurrences in order.  `seen` is the accumulator set of the
Python loop. -/
def normalizeLabelsAux (seen : List String) : List String → List String
  | [] => []
  | l :: ls =>
    let normalized := pyStrip l
    if normalized = "" then normalizeLabelsAux seen ls
    else
      let lower := pyLower normalized
      if lower ∈ seen then normalizeLabelsAux seen ls
      else normalized :: normalizeLabelsAux (lower :: seen) ls

def normalizeLabels (values : List String) : List String :=
  normalizeLabelsAux [] values

/-- First-occurrence deduplication, the loop body of `ensure_system_labels`. -/
def dedupKeepFirst (seen : List SystemLabel) : List SystemLabel → List SystemLabel
  | [] => []
  | x :: xs =>
    if x ∈ seen then dedupKeepFirst seen xs
    else x :: dedupKeepFirst (x :: seen) xs

/-- The `ensure_system_labels` field validator of `Entity`
(`src/graph/models.py`): deduplicate keeping first occurrences, and prepend
`ENTITY` when it does not occur. -/
def ensureSystemLabels (values : List SystemLabel) : List SystemLabel :=
  let cleaned := dedupKeepFirst [] values
  if SystemLabel.ENTITY ∈ values then cleaned
  else SystemLabel.ENTITY :: cleaned

/-- `Entity.is_entry` (`src/graph/models.py`). -/
def Entity.is_entry (e : Entity) : Bool := SystemLabel.ENTRY ∈ e.system_labels

end Momento

namespace Momento

/-- Dictionary lookup on a JSON object's key/value list (`dict.get(key)` /
pydantic field extraction; first binding wins, as Python dicts produced by
`json.loads` and `model_dump` have unique keys). -/
def jget : List (String × Json) → String → Option Json
  | [], _ => none
  | (k, v) :: rest, key => if k = key then some v else jget rest key

/-- Last-binding dictionary semantics for a dict built by comprehension with
possibly colliding keys (`{e.name: id for e in ...}` then `.get`). -/
def lookupLast (pairs : List (String × String)) (key : String) : Option String :=
  pairs.foldl (fun acc kv => if kv.1 = key then some kv.2 else acc) none

/-- Effectful map over `Except` (the list comprehensions / loops of the
source, failing on the first raised exception). -/
def mapMExcept (f : α → Except PyErr β) : List α → Except PyErr (List β)
  | [] => .ok []
  | x :: xs =>
    match f x with
    | .error e => .error e
    | .ok y =>
      match mapMExcept f xs with
      | .error e => .error e
      | .ok ys => .ok (y :: ys)

/-- `json.loads` on a Python string value (stdlib model: succeeds exactly on
canonical encodings, returning the encoded document). -/
def jsonLoads : PyStr → Except PyErr Json
  | .enc j => .ok j
  | .raw _ => .error (.validationError "json.JSONDecodeError")

/-- The text of a Python string value (for `raw` the string itself; `enc j`
is some canonical nonempty rendering of `j`, whose exact characters no
claim depends on). -/
def PyStr.text : PyStr → String
  | .raw s => s
  | .enc _ => "<json>"

/-! ### pydantic validation (`Entity.model_validate` and submodels)

Lax-mode pydantic v2 validation as exercised by this repository: strings
validate `str`-typed fields, `null`/absent yield defaults for optional and
defaulted fields, objects validate nested models and `Dict[str, Any]`,
arrays validate list fields.  A value of the wrong shape (in particular a
string where a dict or submodel is expected) is a validation error. -/

/-- Validate an optional string field. -/
def vOptStr : Option Json → Except PyErr (Option String)
  | none => .ok none
  | some .null => .ok none
  | some (.str s) => .ok (some s)
  | some _ => .error (.validationError "Input should be a valid string")

/-- Validate a required, non-empty string field (`min_length=1`). -/
def vReqStr1 : Option Json → Except PyErr String
  | some (.str s) => if s = "" then .error (.validationError "too short") else .ok s
  | some _ => .error (.validationError "Input should be a valid string")
  | none => .error (.validationError "Field required")

/-- Validate a UUID field with a default (`uuid.UUID` accepts exactly the
canonical nonempty strings this model produces). -/
def vUUID (dflt : UUID) : Option Json → Except PyErr UUID
  | none => .ok dflt
  | some (.str s) => if s = "" then .error (.validationError "invalid UUID") else .ok ⟨s⟩
  | some _ => .error (.validationError "UUID input should be a string")

/-- Validate a datetime field with a default (ISO strings). -/
def vDateTime (dflt : DateTime) : Option Json → Except PyErr DateTime
  | none => .ok dflt
  | some (.str s) => .ok ⟨s⟩
  | some _ => .error (.validationError "datetime input should be a string")

/-- Validate a `Dict[str, Any]` field (default `{}`). -/
def vMeta : Option Json → Except PyErr (List (String × Json))
  | none => .ok []
  | some (.obj kvs) => .ok kvs
  | some _ => .error (.validationError "Input should be a valid dictionary")

/-- Validate one element of a `List[str]` field. -/
def vStrElem : Json → Except PyErr String
  | .str s => .ok s
  | _ => .error (.validationError "Input should be a valid string")

/-- Validate one element of `List[SystemLabel]` (enum lookup by value). -/
def vSysLabelElem : Json → Except PyErr SystemLabel
  | .str s =>
    match SystemLabel.fromStr s with
    | some l => .ok l
    | none => .error (.validationError "Input should be a valid SystemLabel")
  | _ => .error (.validationError "Input should be a valid SystemLabel")

/-- Validate the `format` field (enum by value, default `text`). -/
def vFormat : Option Json → Except PyErr ContentFormat
  | none => .ok ContentFormat.text
  | some (.str s) =>
    match ContentFormat.fromStr s with
    | some f => .ok f
    | none => .error (.validationError "Input should be a valid ContentFormat")
  | some _ => .error (.validationError "Input should be a valid ContentFormat")

/-- `ContentBlock.model_validate`. -/
def contentBlockValidate : Json → Except PyErr ContentBlock
  | .obj kvs => do
    let format ← vFormat (jget kvs "format")
    let body ← vReqStr1 (jget kvs "body")
    let metadata ← vMeta (jget kvs "metadata")
    .ok ⟨format, body, metadata⟩
  | _ => .error (.validationError "Input should be a valid dictionary")

/-- `MediaAttachment.model_validate` (`AnyUrl` modelled as nonempty string). -/
def mediaAttachmentValidate : Json → Except PyErr MediaAttachment
  | .obj kvs => do
    let uri ← vReqStr1 (jget kvs "uri")
    let media_type ← vReqStr1 (jget kvs "media_type")
    let title ← vOptStr (jget kvs "title")
    let description ← vOptStr (jget kvs "description")
    let metadata ← vMeta (jget kvs "metadata")
    .ok ⟨uri, media_type, title, description, metadata⟩
  | _ => .error (.validationError "Input should be a valid dictionary")

/-- Validate one element of `List[float]`. -/
def vNumElem : Json → Except PyErr Rat
  | .num q => .ok q
  | _ => .error (.validationError "Input should be a valid number")

/-- Validate the required `vector` field (`List[float]`), including the
`ensure_vector_not_empty` field validator. -/
def vVector : Option Json → Except PyErr (List Rat)
  | some (.arr xs) =>
    match mapMExcept vNumElem xs with
    | .error e => .error e
    | .ok vec =>
      if vec = [] then .error (.validationError "Embedding vector cannot be empty")
      else .ok vec
  | some _ => .error (.validationError "Input should be a valid list")
  | none => .error (.validationError "Field required")

/-- `EmbeddingVector.model_validate`, including the `ensure_vector_not_empty`
validator. -/
def embeddingVectorValidate : Json → Except PyErr EmbeddingVector
  | .obj kvs => do
    let model ← vReqStr1 (jget kvs "model")
    let vector ← vVector (jget kvs "vector")
    let created_at ← vDateTime defaultDateTime (jget kvs "created_at")
    let metadata ← vMeta (jget kvs "metadata")
    .ok ⟨model, vector, created_at, metadata⟩
  | _ => .error (.validationError "Input should be a valid dictionary")

/-- Validate the optional `confidence` field (`ge=0, le=1`). -/
def vConfidence : Option Json → Except PyErr (Option Rat)
  | none => .ok none
  | some .null => .ok none
  | some (.num q) =>
    if 0 ≤ q ∧ q ≤ 1 then .ok (some q)
    else .error (.validationError "confidence out of range")
  | some _ => .error (.validationError "Input should be a valid number")

/-- `Observation.model_validate` (confidence constrained to `[0, 1]`). -/
def observationValidate : Json → Except PyErr Observation
  | .obj kvs => do
    let id ← vUUID defaultUUID (jget kvs "id")
    let text ← vReqStr1 (jget kvs "text")
    let source ← vOptStr (jget kvs "source")
    let created_at ← vDateTime defaultDateTime (jget kvs "created_at")
    let confidence ← vConfidence (jget kvs "confidence")
    let metadata ← vMeta (jget kvs "metadata")
    .ok ⟨id, text, source, created_at, confidence, metadata⟩
  | _ => .error (.validationError "Input should be a valid dictionary")

/-- Validate the `labels` field, running the `normalize_labels` validator. -/
def vLabels : Option Json → Except PyErr (List String)
  | none => .ok []
  | some (.arr xs) => (mapMExcept vStrElem xs).map normalizeLabels
  | some _ => .error (.validationError "Input should be a valid list")

/-- Validate the `system_labels` field, running the `ensure_system_labels`
validator (the `[ENTITY]` default is used as-is when the field is absent). -/
def vSystemLabels : Option Json → Except PyErr (List SystemLabel)
  | none => .ok [SystemLabel.ENTITY]
  | some (.arr xs) => (mapMExcept vSysLabelElem xs).map ensureSystemLabels
  | some _ => .error (.validationError "Input should be a valid list")

/-- Validate the optional `content` field. -/
def vOptContent : Option Json → Except PyErr (Option ContentBlock)
  | none => .ok none
  | some .null => .ok none
  | some j => (contentBlockValidate j).map some

/-- Validate the `attachments` field. -/
def vAttachments : Option Json → Except PyErr (List MediaAttachment)
  | none => .ok []
  | some (.arr xs) => mapMExcept mediaAttachmentValidate xs
  | some _ => .error (.validationError "Input should be a valid list")

/-- Validate the optional `embedding` field. -/
def vOptEmbedding : Option Json → Except PyErr (Option EmbeddingVector)
  | none => .ok none
  | some .null => .ok none
  | some j => (embeddingVectorValidate j).map some

/-- Validate the `observations` field. -/
def vObservations : Option Json → Except PyErr (List Observation)
  | none => .ok []
  | some (.arr xs) => mapMExcept observationValidate xs
  | some _ => .error (.validationError "Input should be a valid list")

/-- `Entity.model_validate`: field-wise validation, the `normalize_labels`
and `ensure_system_labels` validators, and the `ensure_entry_payload`
model validator (`ENTRY` nodes need content, attachments, or metadata). -/
def entityValidate : Json → Except PyErr Entity
  | .obj kvs => do
    let id ← vUUID defaultUUID (jget kvs "id")
    let external_id ← vOptStr (jget kvs "external_id")
    let name ← vOptStr (jget kvs "name")
    let summary ← vOptStr (jget kvs "summary")
    let labels ← vLabels (jget kvs "labels")
    let system_labels ← vSystemLabels (jget kvs "system_labels")
    let content ← vOptContent (jget kvs "content")
    let attachments ← vAttachments (jget kvs "attachments")
    let embedding ← vOptEmbedding (jget kvs "embedding")
    let metadata ← vMeta (jget kvs "metadata")
    let observations ← vObservations (jget kvs "observations")
    let created_at ← vDateTime defaultDateTime (jget kvs "created_at")
    let updated_at ← vDateTime defaultDateTime (jget kvs "updated_at")
    let e : Entity :=
      ⟨id, external_id, name, summary, labels, system_labels, content,
        attachments, embedding, metadata, observations, created_at, updated_at⟩
    if e.is_entry && e.content.isNone && e.attachments.isEmpty && e.metadata.isEmpty then
      .error (.validationError "ENTRY entities require content, attachments, or metadata")
    else
      .ok e
  | _ => .error (.validationError "Input should be a valid dictionary")

/-! ### pydantic serialization (`model_dump(mode="json")`) -/

def jsonOfOptStr : Option String → Json
  | none => .null
  | some s => .str s

/-- `ContentBlock.model_dump(mode="json")`. -/
def contentBlockDump (cb : ContentBlock) : Json :=
  .obj [("format", .str cb.format.toStr), ("body", .str cb.body),
        ("metadata", .obj cb.metadata)]

/-- `MediaAttachment.model_dump(mode="json")`. -/
def mediaAttachmentDump (a : MediaAttachment) : Json :=
  .obj [("uri", .str a.uri), ("media_type", .str a.media_type),
        ("title", jsonOfOptStr a.title), ("description", jsonOfOptStr a.description),
        ("metadata", .obj a.metadata)]

/-- `EmbeddingVector.model_dump(mode="json")`. -/
def embeddingVectorDump (v : EmbeddingVector) : Json :=
  .obj [("model", .str v.model), ("vector", .arr (v.vector.map Json.num)),
        ("created_at", .str v.created_at.iso), ("metadata", .obj v.metadata)]

def jsonOfOptNum : Option Rat → Json
  | none => .null
  | some q => .num q

/-- `Observation.model_dump(mode="json")`. -/
def observationDump (o : Observation) : Json :=
  .obj [("id", .str o.id.val), ("text", .str o.text),
        ("source", jsonOfOptStr o.source), ("created_at", .str o.created_at.iso),
        ("confidence", jsonOfOptNum o.confidence),
        ("metadata", .obj o.metadata)]

def jsonOfOpt (f : α → Json) : Option α → Json
  | none => .null
  | some x => f x

/-- `Entity.model_dump(mode="json")`: keys in field declaration order,
UUIDs and datetimes as strings, enums as their values. -/
def entityDump (e : Entity) : List (String × Json) :=
  [("id", .str e.id.val),
   ("external_id", jsonOfOptStr e.external_id),
   ("name", jsonOfOptStr e.name),
   ("summary", jsonOfOptStr e.summary),
   ("labels", .arr (e.labels.map Json.str)),
   ("system_labels", .arr (e.system_labels.map (fun l => Json.str l.toStr))),
   ("content", jsonOfOpt contentBlockDump e.content),
   ("attachments", .arr (e.attachments.map mediaAttachmentDump)),
   ("embedding", jsonOfOpt embeddingVectorDump e.embedding),
   ("metadata", .obj e.metadata),
   ("observations", .arr (e.observations.map observationDump)),
   ("created_at", .str e.created_at.iso),
   ("updated_at", .str e.updated_at.iso)]

end Momento

namespace Momento

/-! ### Neo4j store model and `EntityRepository`
(`src/graph/repositories/entity_repository.py`)

Node property values are scalars (strings), string arrays, or null; nested
structured fields are stored as JSON-encoded strings per the repository's
`JSON_FIELDS` contract. -/

/-- A Neo4j node property value. -/
inductive NodeVal where
  | s (v : PyStr) : NodeVal
  | sList (xs : List String) : NodeVal
  | nullv : NodeVal

/-- The `JSON_FIELDS` set of `entity_repository.py`. -/
def JSON_FIELDS : List String :=
  ["content", "attachments", "embedding", "metadata", "observations"]

/-- A stored node: properties plus Neo4j labels. -/
structure NodeRec where
  props : List (String × NodeVal)
  nodeLabels : List String

/-- The graph store: entity nodes and typed edges. -/
structure Edge where
  src : String
  relType : String
  tgt : String
deriving DecidableEq, Repr

structure Store where
  nodes : List NodeRec
  edges : List Edge

/-- Property lookup on a node (`dict(node).get`). -/
def NodeRec.get (n : NodeRec) (key : String) : Option NodeVal :=
  n.props.lookup key

/-- The `id` property of a property list, when it is a string. -/
def pidOf (props : List (String × NodeVal)) : Option String :=
  match props.lookup "id" with
  | some (.s ps) => some ps.text
  | _ => none

/-- The `id` property of a node, when it is a string. -/
def NodeRec.idStr (n : NodeRec) : Option String :=
  pidOf n.props

/-- Scalar JSON values of a `model_dump` payload as Neo4j property values
(objects/arrays of the dump are JSON-encoded before reaching the store, so
only these shapes occur for non-encoded fields). -/
def nodeValOfScalar : Json → NodeVal
  | .str s => .s (.raw s)
  | .arr xs => .sList (xs.map (fun j => match j with | .str s => s | _ => ""))
  | _ => .nullv

/-- One property of `_serialize_entity`: non-null `JSON_FIELDS` values are
replaced by their `json.dumps` string, the rest are stored as scalars. -/
def serializeProp (kv : String × Json) : String × NodeVal :=
  if kv.1 ∈ JSON_FIELDS then
    match kv.2 with
    | .null => (kv.1, .nullv)
    | v => (kv.1, .s (.enc v))
  else (kv.1, nodeValOfScalar kv.2)

/-- `EntityRepository._serialize_entity`: `model_dump(mode="json")`, then
each non-null `JSON_FIELDS` value is replaced by its `json.dumps` string. -/
def serializeEntity (e : Entity) : List (String × NodeVal) :=
  (entityDump e).map serializeProp

/-- A node property value as the Python value handed to `model_validate`. -/
def jsonOfNodeVal : NodeVal → Json
  | .s ps => .str ps.text
  | .sList xs => .arr (xs.map Json.str)
  | .nullv => .null

/-- One property of `_node_to_entity`: a nonempty string-valued
`JSON_FIELDS` property is decoded with `json.loads`; on decode failure only
a warning is logged and the raw string is left in place. -/
def readProp (kv : String × NodeVal) : String × Json :=
  if kv.1 ∈ JSON_FIELDS then
    match kv.2 with
    | .s ps =>
      if ps.text = "" then (kv.1, Json.str ps.text)
      else
        match jsonLoads ps with
        | .ok j => (kv.1, j)
        | .error _ => (kv.1, Json.str ps.text)
    | v => (kv.1, jsonOfNodeVal v)
  else (kv.1, jsonOfNodeVal kv.2)

/-- `EntityRepository._node_to_entity`: decode the `JSON_FIELDS`
properties, then `Entity.model_validate` on the resulting dict. -/
def nodeToEntity (props : List (String × NodeVal)) : Except PyErr Entity :=
  entityValidate (.obj (props.map readProp))

/-- The Neo4j labels applied by the `FOREACH ... SET e:L` clauses of the
upsert queries: one gated clause per member of the closed vocabulary,
keyed on membership in the payload's `system_labels` array. -/
def systemLabelStrings (props : List (String × NodeVal)) : List String :=
  match props.lookup "system_labels" with
  | some (.sList xs) =>
    ["ENTRY", "ENTITY", "PERSON", "LOCATION", "ORGANIZATION",
     "OBJECT", "EVENT", "CONCEPT", "OBSERVATION"].filter (fun l => l ∈ xs)
  | _ => []

/-- Add labels not already present. -/
def addLabels (old new : List String) : List String :=
  old ++ new.filter (fun l => l ∉ old)

/-- `MERGE (e:Entity {id: ...}) SET e = $entity FOREACH ... SET e:L`:
on a match replace all properties and add labels; on a miss create the
node with label `Entity` plus the gated labels. -/
def mergeSetNode (st : Store) (props : List (String × NodeVal)) : Store :=
  let idOf : Option String := pidOf props
  if st.nodes.any (fun n => n.idStr = idOf ∧ idOf ≠ none) then
    { st with nodes := st.nodes.map (fun n =>
        if n.idStr = idOf then
          { props := props, nodeLabels := addLabels n.nodeLabels (systemLabelStrings props) }
        else n) }
  else
    { st with nodes :=
        st.nodes ++ [{ props := props,
                       nodeLabels := addLabels ["Entity"] (systemLabelStrings props) }] }

/-- `MATCH (e:Entity {id: $entity_id})` on the store. -/
def findNode (st : Store) (entityId : String) : Option NodeRec :=
  st.nodes.find? (fun n => n.idStr = some entityId)

/-- `EntityRepository.upsert`: serialize, merge into the store, and return
the stored entity by re-reading the node. -/
def entityUpsert (st : Store) (e : Entity) : Except PyErr (Store × Entity) := do
  let payload := serializeEntity e
  let st' := mergeSetNode st payload
  match findNode st' e.id.val with
  | none => .error (.validationError "Failed to persist entity")
  | some n => do
    let stored ← nodeToEntity n.props
    .ok (st', stored)

/-- `EntityRepository.bulk_create`: `UNWIND`-merge every payload, then
return the stored entities by re-reading each node. -/
def entityBulkCreate (st : Store) (es : List Entity) : Except PyErr (Store × List Entity) := do
  let payloads := es.map serializeEntity
  let st' := payloads.foldl mergeSetNode st
  let stored ← mapMExcept (fun e =>
    match findNode st' e.id.val with
    | none => Except.error (.validationError "node not returned")
    | some n => nodeToEntity n.props) es
  .ok (st', stored)

/-- `EntityRepository.get`: read-by-id; decodes the node when found. -/
def entityGet (st : Store) (entityId : String) : Except PyErr (Option Entity) :=
  match findNode st entityId with
  | none => .ok none
  | some n => (nodeToEntity n.props).map some

/-- `EntityRepository.list`: `MATCH (e:Entity) RETURN e SKIP $skip LIMIT
$limit`, decoding each returned node. -/
def entityList (st : Store) (limit skip : Nat) : Except PyErr (List Entity) :=
  mapMExcept (fun n => nodeToEntity n.props) ((st.nodes.drop skip).take limit)

/-! ### `RelationRepository` (`src/graph/repositories/relation_repository.py`) -/

/-- The `Relation` model of `src/graph/models.py` (all three fields
`min_length=1`). -/
structure Relation where
  source : String
  target : String
  relationType : String
deriving DecidableEq, Repr

/-- `Relation.model_validate` / the `Relation(...)` constructor. -/
def relationValidate : Json → Except PyErr Relation
  | .obj kvs => do
    let source ← vReqStr1 (jget kvs "source")
    let target ← vReqStr1 (jget kvs "target")
    let relationType ← vReqStr1 (jget kvs "relationType")
    .ok ⟨source, target, relationType⟩
  | _ => .error (.validationError "Input should be a valid dictionary")

/-- Character class `[A-Z0-9_]`. -/
def isUpperSnakeChar (c : Char) : Bool :=
  ('A' ≤ c && c ≤ 'Z') || ('0' ≤ c && c ≤ '9') || c = '_'

/-- Membership in the regular language `[A-Z0-9_]+` (the mathematical
reading of the spec's regex `^[A-Z0-9_]+$`). -/
def matchesClaimRegex (s : String) : Bool :=
  s ≠ "" && s.data.all isUpperSnakeChar

/-- Python `re.match(r"^[A-Z0-9_]+$", s)` as a Boolean: in non-multiline
mode `$` also matches just before one trailing newline. -/
def reMatchUpperSnake (s : String) : Bool :=
  let core : String :=
    match s.data.getLast? with
    | some c => if c = '\n' then ⟨s.data.dropLast⟩ else s
    | none => s
  matchesClaimRegex core

/-- `RelationRepository.create`: uppercase the relation type, reject it
when the uppercased form fails the regex match, otherwise `MATCH` both
endpoint nodes and `MERGE` the edge (no edge is created when an endpoint
node is missing), returning the input relation. -/
def relationCreate (st : Store) (rel : Relation) : Except PyErr (Store × Relation) :=
  let relation_type := pyUpper rel.relationType
  if ¬ reMatchUpperSnake relation_type then
    .error (.validationError ("Invalid relation type " ++ rel.relationType))
  else
    let st' :=
      if (findNode st rel.source).isSome && (findNode st rel.target).isSome then
        let edge : Edge := ⟨rel.source, relation_type, rel.target⟩
        if edge ∈ st.edges then st else { st with edges := st.edges ++ [edge] }
      else st
    .ok (st', rel)

/-- `RelationRepository.bulk_create`: best-effort loop, failures logged and
skipped; returns the new store and the successfully created relations. -/
def relationBulkCreate (st : Store) : List Relation → Store × List Relation
  | [] => (st, [])
  | rel :: rest =>
    match relationCreate st rel with
    | .ok (st', r) =>
      let out := relationBulkCreate st' rest
      (out.1, r :: out.2)
    | .error _ => relationBulkCreate st rest

end Momento

namespace Momento

/-! ### Extraction providers (`src/graph/providers/*.py`) -/

/-- `ExtractionResult` of `src/graph/providers/base.py`. -/
structure ExtractionResult where
  entities : List Entity
  relations : List Relation

/-- The `Relation(...)` constructor (pydantic `min_length=1` on all three
fields). -/
def relationMk (source target relationType : String) : Except PyErr Relation :=
  if source = "" ∨ target = "" ∨ relationType = "" then
    .error (.validationError "String should have at least 1 character")
  else .ok ⟨source, target, relationType⟩

/-- `metadata.get("text", "")` as used by the providers (in this codebase
the `text` metadata entry is always a string). -/
def mdGetText (md : List (String × Json)) : String :=
  match jget md "text" with
  | some (.str s) => s
  | _ => ""

/-- `OllamaProvider._parse_response`: strict JSON parse, entities/relations
must be lists, each entity/relation payload validated individually with
failures skipped, and an all-empty result is a provider error. -/
def ollamaParseResponse (raw : PyStr) : Except PyErr ExtractionResult := do
  let parsed ←
    match jsonLoads raw with
    | .ok j => Except.ok j
    | .error _ => Except.error (.providerError "Provider response is not valid JSON")
  match parsed with
  | .obj kvs =>
    let entitiesPayload := (jget kvs "entities").getD (.arr [])
    let relationsPayload := (jget kvs "relations").getD (.arr [])
    match entitiesPayload, relationsPayload with
    | .arr es, .arr rs =>
      let entities := es.filterMap (fun j => (entityValidate j).toOption)
      let relations := rs.filterMap (fun j => (relationValidate j).toOption)
      if entities.isEmpty && relations.isEmpty then
        .error (.providerError "Provider returned empty payload")
      else .ok ⟨entities, relations⟩
    | _, _ => .error (.providerError "Provider response missing entities/relations lists")
  | _ => .error (.validationError "AttributeError: no attribute get")

/-- Whether a parsed JSON value is a Python dict. -/
def Json.isDict : Json → Bool
  | .obj _ => true
  | _ => false

/-- The list comprehension `[Entity.model_validate(obj) for obj in payload
if isinstance(obj, dict)]`: non-dict payloads are filtered out, but a
validation error on any dict payload escapes the whole comprehension. -/
def validateDictsStrict (f : Json → Except PyErr α) : List Json → Except PyErr (List α)
  | [] => .ok []
  | j :: rest =>
    if j.isDict then
      match f j with
      | .error e => .error e
      | .ok x =>
        match validateDictsStrict f rest with
        | .error e => .error e
        | .ok xs => .ok (x :: xs)
    else validateDictsStrict f rest

/-- Iterating `parsed.get("entities", [])` in a comprehension: lists are
iterated element-wise; iterating a string yields characters and a dict its
keys (never dicts, so the comprehension yields nothing); other values are
not iterable. -/
def comprehendPayload (f : Json → Except PyErr α) : Json → Except PyErr (List α)
  | .arr xs => validateDictsStrict f xs
  | .str _ => .ok []
  | .obj _ => .ok []
  | _ => .error (.validationError "TypeError: not iterable")

/-- `OpenAIProvider._parse_response`: strict JSON parse, then strict list
comprehensions over the entity and relation payloads (no per-item recovery
for dict payloads), and an all-empty result is a provider error. -/
def openaiParseResponse (raw : PyStr) : Except PyErr ExtractionResult := do
  let parsed ←
    match jsonLoads raw with
    | .ok j => Except.ok j
    | .error _ => Except.error (.providerError "Provider response is not valid JSON")
  match parsed with
  | .obj kvs => do
    let entities ← comprehendPayload entityValidate ((jget kvs "entities").getD (.arr []))
    let relations ← comprehendPayload relationValidate ((jget kvs "relations").getD (.arr []))
    if entities.isEmpty && relations.isEmpty then
      .error (.providerError "Provider returned empty payload")
    else .ok ⟨entities, relations⟩
  | _ => .error (.validationError "AttributeError: no attribute get")

/-- `AnthropicProvider._parse_response` (same body as the OpenAI parse). -/
def anthropicParseResponse (raw : PyStr) : Except PyErr ExtractionResult := do
  let parsed ←
    match jsonLoads raw with
    | .ok j => Except.ok j
    | .error _ => Except.error (.providerError "Provider response is not valid JSON")
  match parsed with
  | .obj kvs => do
    let entities ← comprehendPayload entityValidate ((jget kvs "entities").getD (.arr []))
    let relations ← comprehendPayload relationValidate ((jget kvs "relations").getD (.arr []))
    if entities.isEmpty && relations.isEmpty then
      .error (.providerError "Provider returned empty payload")
    else .ok ⟨entities, relations⟩
  | _ => .error (.validationError "AttributeError: no attribute get")

end Momento

namespace Momento

/-! ### Local heuristic provider (`src/graph/providers/local_provider.py`) -/

def PERSON_HINTS : List String := ["Brian", "Yoli", "Eric", "Darren"]
def LOCATION_HINTS : List String := ["Hopewell Junction", "Poughkeepsie"]
def ORGANIZATION_HINTS : List String := ["Twilight Florist"]
def EVENT_HINTS : List String := ["date", "meeting", "first date"]
def STOPWORDS : List String :=
  ["he", "she", "it", "we", "i", "my", "me", "you", "they",
   "december", "october", "mid", "first"]

/-- Regex word character `\w` (ASCII). -/
def wordChar (c : Char) : Bool := c.isAlphanum || c = '_'

def isUpperAZ (c : Char) : Bool := 'A' ≤ c && c ≤ 'Z'
def isLowerAZ (c : Char) : Bool := 'a' ≤ c && c ≤ 'z'

/-- `re.findall(r"\b([A-Z][a-z]+(?:\s[A-Z][a-z]+)?)\b", text)`: scan left
to right; at a word boundary an uppercase letter followed by a greedy
lowercase run forms the first word; a single whitespace plus a second
capitalized word extends the match when a word boundary follows; otherwise
the single word matches when a non-word character (or the end) follows.
Failed attempts advance one position; matches resume at the match end. -/
def findCapsFuel : Nat → Option Char → List Char → List String
  | 0, _, _ => []
  | fuel + 1, prev, cs =>
    match cs with
    | [] => []
    | c :: rest =>
      let boundary := match prev with | none => true | some p => !wordChar p
      if boundary && isUpperAZ c then
        let low := rest.takeWhile isLowerAZ
        if low.isEmpty then findCapsFuel fuel (some c) rest
        else
          let after1 := rest.drop low.length
          match after1.head? with
          | none => [String.mk (c :: low)]
          | some a =>
            if wordChar a then findCapsFuel fuel (some c) rest
            else if a.isWhitespace then
              let rest2 := after1.tail
              match rest2.head? with
              | some b =>
                if isUpperAZ b then
                  let low2 := rest2.tail.takeWhile isLowerAZ
                  if low2.isEmpty then
                    String.mk (c :: low) :: findCapsFuel fuel (some (low.getLastD c)) after1
                  else
                    let after2 := rest2.tail.drop low2.length
                    match after2.head? with
                    | none => [String.mk (c :: low ++ a :: b :: low2)]
                    | some d =>
                      if wordChar d then
                        String.mk (c :: low) :: findCapsFuel fuel (some (low.getLastD c)) after1
                      else
                        String.mk (c :: low ++ a :: b :: low2) ::
                          findCapsFuel fuel (some (low2.getLastD b)) after2
                else String.mk (c :: low) :: findCapsFuel fuel (some (low.getLastD c)) after1
              | none => String.mk (c :: low) :: findCapsFuel fuel (some (low.getLastD c)) after1
            else String.mk (c :: low) :: findCapsFuel fuel (some (low.getLastD c)) after1
      else findCapsFuel fuel (some c) rest

/-- The scan of the whole text: every recursive step consumes at least one
character, so `length + 1` fuel is enough. -/
def findCaps (prev : Option Char) (cs : List Char) : List String :=
  findCapsFuel (cs.length + 1) prev cs

/-- Whether `needle` occurs as a contiguous run in the character list. -/
def charListHasInfix (needle : List Char) : List Char → Bool
  | [] => needle.isEmpty
  | c :: t => needle.isPrefixOf (c :: t) || charListHasInfix needle t

/-- Python substring containment (`needle in hay`). -/
def strContains (hay needle : String) : Bool :=
  charListHasInfix needle.data hay.data

/-- Code-point lexicographic comparison of character lists (Python string
`<`). -/
def charListLt : List Char → List Char → Bool
  | [], [] => false
  | [], _ :: _ => true
  | _ :: _, [] => false
  | a :: as, b :: bs =>
    if a.val < b.val then true
    else if b.val < a.val then false
    else charListLt as bs

def pyStrLt (a b : String) : Bool := charListLt a.data b.data

/-- Insert into a sorted duplicate-free list (string code-point order). -/
def insertSortedUnique (x : String) : List String → List String
  | [] => [x]
  | y :: ys =>
    if x = y then y :: ys
    else if pyStrLt x y then x :: y :: ys
    else y :: insertSortedUnique x ys

/-- `sorted(set(xs))`. -/
def pySortedSet (xs : List String) : List String :=
  xs.foldl (fun acc x => insertSortedUnique x acc) []

/-- `LocalLLMProvider._extract_named_entities`: regex candidates minus
stopwords, plus the person hints occurring in the text, as a sorted set. -/
def extractNamedEntities (text : String) : List String :=
  let fromRegex := (findCaps none text.data).filterMap (fun m =>
    let normalized := pyStrip m
    if pyLower normalized ∈ STOPWORDS then none else some normalized)
  let withHints := fromRegex ++ PERSON_HINTS.filter (fun h => strContains text h)
  pySortedSet withHints

/-- `LocalLLMProvider._infer_system_label`. -/
def inferSystemLabel (name : String) : SystemLabel :=
  if name ∈ LOCATION_HINTS
      || strEndsWith (pyLower name) "junction" || strEndsWith (pyLower name) "poughkeepsie" then
    .LOCATION
  else if name ∈ ORGANIZATION_HINTS || strContains name "Florist" then
    .ORGANIZATION
  else if name ∈ EVENT_HINTS || strContains (pyLower name) "date" then
    .EVENT
  else .PERSON

/-- `LocalLLMProvider._build_entity`: an extracted entity with generated
labels, one observation, and provenance metadata (fresh UUID draws are the
model's default constant). -/
def buildLocalEntity (name : String) (entry : Entity) : Entity :=
  let system_label := inferSystemLabel name
  let labels :=
    ["generated", "extracted"] ++
      (if system_label = SystemLabel.LOCATION then ["location"]
       else if system_label = SystemLabel.ORGANIZATION then ["organization"]
       else [])
  { id := defaultUUID
    external_id := none
    name := some name
    summary := none
    labels := normalizeLabels labels
    system_labels := ensureSystemLabels [system_label]
    content := none
    attachments := []
    embedding := none
    metadata := [("generated_by", .str "local-provider"),
                 ("entity_type", .str system_label.toStr)]
    observations := [{ id := defaultUUID
                       text := "Mentioned alongside entry " ++ entry.id.val
                       source := none
                       created_at := defaultDateTime
                       confidence := none
                       metadata := [("source_entry_id", .str entry.id.val)] }]
    created_at := defaultDateTime
    updated_at := defaultDateTime }

/-- `LocalLLMProvider._build_relation`: a `MENTIONS` edge from the entry to
the extracted entity (the `Relation` constructor re-validates). -/
def buildLocalRelation (entry entity : Entity) : Except PyErr Relation :=
  relationMk entry.id.val entity.id.val "MENTIONS"

/-- The text selection of `LocalLLMProvider.extract`: the content body,
else the summary, else the `text` metadata entry when metadata is truthy. -/
def localText (entry : Entity) (metadata : Option (List (String × Json))) : String :=
  let t1 :=
    match entry.content with
    | some cb => cb.body
    | none => entry.summary.getD ""
  if t1 = "" then
    match metadata with
    | some md => if md.isEmpty then "" else mdGetText md
    | none => ""
  else t1

/-- `LocalLLMProvider.extract`: with no text an empty result is returned
(not an error), otherwise one entity and one `MENTIONS` relation per
extracted candidate name. -/
def localExtract (entry : Entity) (metadata : Option (List (String × Json))) :
    Except PyErr ExtractionResult :=
  let text := localText entry metadata
  if text = "" then
    .ok ⟨[], []⟩
  else
    let names := extractNamedEntities text
    let entities := names.map (fun n => buildLocalEntity n entry)
    match mapMExcept (buildLocalRelation entry) entities with
    | .error e => .error e
    | .ok relations => .ok ⟨entities, relations⟩

end Momento

namespace Momento

/-! ### Extraction pipeline (`src/graph/pipeline/extraction_runner.py`) -/

/-- An observer callback delivery. -/
inductive ObserverEvent where
  | onSuccess (entry : Entity) (result : ExtractionResult) : ObserverEvent
  | onFailure (entry : Entity) (error : PyErr) : ObserverEvent

/-- `ExtractionPipeline._notify_success`: one `on_success` call per
registered observer. -/
def notifySuccess (observers : List String) (entry : Entity) (result : ExtractionResult) :
    List (String × ObserverEvent) :=
  observers.map (fun o => (o, .onSuccess entry result))

/-- `ExtractionPipeline._notify_failure`: one `on_failure` call per
registered observer. -/
def notifyFailure (observers : List String) (entry : Entity) (err : PyErr) :
    List (String × ObserverEvent) :=
  observers.map (fun o => (o, .onFailure entry err))

/-- Result of `ExtractionPipeline.run`: the returned/raised outcome plus
the observer notifications made on the way. -/
structure PipelineOutput where
  result : Except PyErr ExtractionResult
  events : List (String × ObserverEvent)

/-- `ExtractionPipeline.run`: call the primary provider; on
`ExtractionProviderError` re-raise after notifying failure when fallback is
disabled, otherwise call the local fallback provider, notifying success on
its result and failure on any fallback error; on any other exception notify
failure and re-raise; on primary success notify success. -/
def pipelineRun (allowFallback : Bool) (observers : List String)
    (primaryExtract : Entity → Option (List (String × Json)) → Except PyErr ExtractionResult)
    (entry : Entity) (metadata : Option (List (String × Json))) : PipelineOutput :=
  match primaryExtract entry metadata with
  | .ok result => ⟨.ok result, notifySuccess observers entry result⟩
  | .error (.providerError m) =>
    if ¬ allowFallback then
      ⟨.error (.providerError m), notifyFailure observers entry (.providerError m)⟩
    else
      match localExtract entry metadata with
      | .ok result => ⟨.ok result, notifySuccess observers entry result⟩
      | .error fe => ⟨.error fe, notifyFailure observers entry fe⟩
  | .error e => ⟨.error e, notifyFailure observers entry e⟩

/-! ### Background dispatcher (`src/graph/tasks/background.py`) -/

/-- Observable outcome of `ExtractionTaskDispatcher._run_pipeline_safe`:
what (if anything) propagated to the caller, the `on_complete` invocations
with their arguments, and the exception swallowed by the guard-rail log. -/
structure DispatchOutcome where
  raisedToCaller : Option PyErr
  completions : List ExtractionResult
  loggedError : Option PyErr

/-- `ExtractionTaskDispatcher._run_pipeline_safe`: run the pipeline and
invoke `on_complete` on success, all inside a catch-all that logs any
exception (from the pipeline or from the callback) without re-raising. -/
def runPipelineSafe (run : Except PyErr ExtractionResult)
    (onComplete : Option (ExtractionResult → Except PyErr Unit)) : DispatchOutcome :=
  match run with
  | .error e => { raisedToCaller := none, completions := [], loggedError := some e }
  | .ok result =>
    match onComplete with
    | none => { raisedToCaller := none, completions := [], loggedError := none }
    | some f =>
      match f result with
      | .ok _ => { raisedToCaller := none, completions := [result], loggedError := none }
      | .error e =>
        { raisedToCaller := none, completions := [result], loggedError := some e }

/-- Outcome of `ExtractionTaskDispatcher.enqueue`: with a scheduler the
safe pipeline run is appended to the background queue; without one it runs
inline before `enqueue` returns. -/
inductive EnqueueOutcome where
  | deferred (task : DispatchOutcome) : EnqueueOutcome
  | inline (outcome : DispatchOutcome) : EnqueueOutcome

/-- `ExtractionTaskDispatcher.enqueue`. -/
def dispatcherEnqueue (hasScheduler : Bool) (run : Except PyErr ExtractionResult)
    (onComplete : Option (ExtractionResult → Except PyErr Unit)) : EnqueueOutcome :=
  if hasScheduler then .deferred (runPipelineSafe run onComplete)
  else .inline (runPipelineSafe run onComplete)

/-! ### Entry ingestion persistence
(`src/graph/services/entry_ingestion.py`) -/

/-- The endpoint-resolution map `{e.name: str(e.id) for e in saved_entities
if e.name}` (falsy names — `None` or the empty string — are skipped). -/
def nameToIdMap (saved : List Entity) : List (String × String) :=
  saved.filterMap (fun e =>
    match e.name with
    | some n => if n = "" then none else some (n, e.id.val)
    | none => none)

/-- `_resolve`: rewrite an endpoint through the name map, keeping it
verbatim when it is not a saved entity name. -/
def resolveEndpoint (nameToId : List (String × String)) (endpoint : String) : String :=
  (lookupLast nameToId endpoint).getD endpoint

/-- `EntryIngestionService._persist_extraction`: bulk-upsert the extracted
entities, rewrite relation endpoints that are names of saved entities to
their stored IDs, and best-effort create the mapped relations. -/
def persistExtraction (st : Store) (result : ExtractionResult) : Except PyErr Store :=
  match (if result.entities.isEmpty then Except.ok (st, ([] : List Entity))
         else entityBulkCreate st result.entities) with
  | .error e => .error e
  | .ok (st1, saved) =>
    if result.relations.isEmpty then .ok st1
    else
      let nameToId := nameToIdMap saved
      match mapMExcept (fun rel =>
          relationMk (resolveEndpoint nameToId rel.source)
            (resolveEndpoint nameToId rel.target) rel.relationType) result.relations with
      | .error e => .error e
      | .ok mapped => .ok (relationBulkCreate st1 mapped).1

/-! ### Entity list endpoint (`src/graph/routers.py`) -/

/-- `EntityListResponse` of `src/graph/schemas.py`. -/
structure EntityListResponse where
  items : List Entity
  total : Nat

/-- The `GET /graph/entities` handler `list_entities`: page the store
through `EntityService.list` and report `total=len(items)`. -/
def listEntities (st : Store) (limit skip : Nat) : Except PyErr EntityListResponse := do
  let items ← entityList st limit skip
  .ok ⟨items, items.length⟩

end Momento

namespace Momento

/-- The tail of `OpenAIProvider.extract` once an HTTP response text `raw`
is in hand: parse it, falling back to the local provider only on
`ExtractionProviderError`; any other exception (such as a pydantic
validation error) propagates. -/
def openaiHandleParsed (entry : Entity) (metadata : Option (List (String × Json)))
    (raw : PyStr) : Except PyErr ExtractionResult :=
  match openaiParseResponse raw with
  | .error (.providerError _) => localExtract entry metadata
  | other => other

/-- The tail of `AnthropicProvider.extract` once an HTTP response text is
in hand (same handling as the OpenAI provider). -/
def anthropicHandleParsed (entry : Entity) (metadata : Option (List (String × Json)))
    (raw : PyStr) : Except PyErr ExtractionResult :=
  match anthropicParseResponse raw with
  | .error (.providerError _) => localExtract entry metadata
  | other => other

/-! ### Validity of entity values

`validB e` says `e` satisfies every constraint the pydantic model enforces
on construction, i.e. `e` is a value the model can actually hold: nonempty
UUID strings, nonempty required strings, vector nonempty, confidence in
range, the two label validators fixed, and the ENTRY payload guard. -/

def ContentBlock.validB (cb : ContentBlock) : Bool := cb.body ≠ ""

def MediaAttachment.validB (a : MediaAttachment) : Bool :=
  a.uri ≠ "" && a.media_type ≠ ""

def EmbeddingVector.validB (v : EmbeddingVector) : Bool :=
  v.model ≠ "" && !v.vector.isEmpty

def Observation.validB (o : Observation) : Bool :=
  o.id.val ≠ "" && o.text ≠ "" &&
    (match o.confidence with
     | some q => decide (0 ≤ q) && decide (q ≤ 1)
     | none => true)

def Entity.validB (e : Entity) : Bool :=
  e.id.val ≠ "" &&
  decide (e.labels = normalizeLabels e.labels) &&
  decide (e.system_labels = ensureSystemLabels e.system_labels) &&
  (match e.content with | some cb => cb.validB | none => true) &&
  e.attachments.all MediaAttachment.validB &&
  (match e.embedding with | some v => v.validB | none => true) &&
  e.observations.all Observation.validB &&
  !(e.is_entry && e.content.isNone && e.attachments.isEmpty && e.metadata.isEmpty)

/-- The `Entity(...)` keyword constructor: pydantic runs the
`normalize_labels` and `ensure_system_labels` field validators and the
`ensure_entry_payload` model validator on construction
(`src/graph/models.py`). -/
def entityConstruct (id : UUID) (external_id name summary : Option String)
    (labels : List String) (system_labels : List SystemLabel)
    (content : Option ContentBlock) (attachments : List MediaAttachment)
    (embedding : Option EmbeddingVector) (metadata : List (String × Json))
    (observations : List Observation) (created_at updated_at : DateTime) :
    Except PyErr Entity :=
  let e : Entity := ⟨id, external_id, name, summary, normalizeLabels labels,
    ensureSystemLabels system_labels, content, attachments, embedding, metadata,
    observations, created_at, updated_at⟩
  if e.is_entry && e.content.isNone && e.attachments.isEmpty && e.metadata.isEmpty then
    .error (.validationError "ENTRY entities require content, attachments, or metadata")
  else .ok e

/-! ### Concrete fixtures used by closed evaluations -/

/-- A valid entity with non-trivial content, observations and metadata. -/
def fixtureEntity : Entity :=
  { id := ⟨"e-1"⟩, external_id := none, name := some "Morning Run",
    summary := some "a training log entry", labels := ["fitness", "running"],
    system_labels := [.ENTITY, .ENTRY],
    content := some ⟨.markdown, "Ran 5k", [("language", .str "en")]⟩,
    attachments := [], embedding := none,
    metadata := [("distance_km", .num 5)],
    observations := [⟨⟨"o-1"⟩, "Alex joined", some "agent",
      ⟨"2024-01-02T00:00:00"⟩, some 1, []⟩],
    created_at := ⟨"2024-01-01T00:00:00"⟩, updated_at := ⟨"2024-01-01T00:00:00"⟩ }

/-- The stored node of `fixtureEntity` with its `metadata` property
corrupted to a string that does not decode as JSON. -/
def corruptMetadataNode : List (String × NodeVal) :=
  (serializeEntity fixtureEntity).map (fun kv =>
    if kv.1 = "metadata" then (kv.1, .s (.raw "not-json\x7b")) else kv)

/-- A store holding only the corrupted node. -/
def corruptStore : Store :=
  { nodes := [{ props := corruptMetadataNode, nodeLabels := ["Entity"] }], edges := [] }

def emptyStore : Store := ⟨[], []⟩

/-- A minimal entry entity, as the pipeline hands to providers. -/
def fixtureEntry : Entity :=
  { id := ⟨"entry-1"⟩, external_id := none, name := some "Memory Entry",
    summary := none, labels := [], system_labels := [.ENTITY, .ENTRY],
    content := some ⟨.text, "Brian met Yoli at Twilight Florist.", []⟩,
    attachments := [], embedding := none, metadata := [("src", .str "test")],
    observations := [], created_at := ⟨"t"⟩, updated_at := ⟨"t"⟩ }

/-- A provider response whose `entities` list holds one valid payload and
one dict payload that fails entity validation. -/
def mixedEntitiesRaw : PyStr :=
  .enc (.obj [("entities", .arr [.obj [("name", .str "Good")],
                                 .obj [("name", .str "Bad"), ("labels", .num 5)]]),
              ("relations", .arr [])])

end Momento

namespace Momento

/-! ### Auxiliary lemmas -/

section StripLemmas

variable {α : Type _} (p : α → Bool)

theorem dropWhile_dropWhile (l : List α) :
    (l.dropWhile p).dropWhile p = l.dropWhile p := by
  induction l with
  | nil => rfl
  | cons a t ih =>
    by_cases h : p a
    · simp [List.dropWhile, h, ih]
    · simp [List.dropWhile, h]

theorem dropWhile_getLast? (l : List α) (h : l.dropWhile p ≠ []) :
    (l.dropWhile p).getLast? = l.getLast? := by
  induction l with
  | nil => simp [List.dropWhile] at h
  | cons a t ih =>
    by_cases hp : p a
    · have hd : (a :: t).dropWhile p = t.dropWhile p := by simp [List.dropWhile, hp]
      rw [hd] at h ⊢
      rw [ih h]
      cases t with
      | nil => simp [List.dropWhile] at h
      | cons b t2 => rw [List.getLast?_cons_cons]
    · simp [List.dropWhile, hp]

theorem dropWhile_head?_false (l : List α) (x : α)
    (h : (l.dropWhile p).head? = some x) : p x = false := by
  induction l with
  | nil => simp [List.dropWhile] at h
  | cons a t ih =>
    by_cases hp : p a
    · rw [show (a :: t).dropWhile p = t.dropWhile p by simp [List.dropWhile, hp]] at h
      exact ih h
    · rw [show (a :: t).dropWhile p = a :: t by simp [List.dropWhile, hp]] at h
      simp at h
      simp [← h] at hp ⊢
      exact hp

theorem dropWhile_of_head?_false (l : List α)
    (h : ∀ x, l.head? = some x → p x = false) : l.dropWhile p = l := by
  cases l with
  | nil => rfl
  | cons a t => simp [List.dropWhile, h a rfl]

/-- The two-sided strip of a list is idempotent. -/
theorem stripList_idem (l : List α) :
    ((((((l.dropWhile p).reverse.dropWhile p).reverse).dropWhile p).reverse.dropWhile p).reverse) =
      ((l.dropWhile p).reverse.dropWhile p).reverse := by
  set A := l.dropWhile p with hA
  set B := A.reverse.dropWhile p with hB
  have hBdrop : B.dropWhile p = B := dropWhile_dropWhile p A.reverse
  by_cases hBnil : B = []
  · simp [hBnil]
  · have hRdrop : B.reverse.dropWhile p = B.reverse := by
      apply dropWhile_of_head?_false
      intro x hx
      rw [List.head?_reverse] at hx
      have h1 : B.getLast? = A.reverse.getLast? := dropWhile_getLast? p A.reverse hBnil
      rw [h1, List.getLast?_reverse] at hx
      exact dropWhile_head?_false p l x (hA ▸ hx)
    rw [hRdrop, List.reverse_reverse, hBdrop]

end StripLemmas

/-- `pyStrip` is idempotent. -/
theorem pyStrip_idem (s : String) : pyStrip (pyStrip s) = pyStrip s := by
  unfold pyStrip
  exact congrArg String.mk (stripList_idem Char.isWhitespace s.data)

end Momento

namespace Momento

section LabelLemmas

theorem normalizeLabelsAux_mem (seen : List String) (xs : List String) :
    ∀ x ∈ normalizeLabelsAux seen xs, x ≠ "" ∧ pyStrip x = x ∧ pyLower x ∉ seen := by
  induction xs generalizing seen with
  | nil => simp [normalizeLabelsAux]
  | cons l ls ih =>
    intro x hx
    by_cases h1 : pyStrip l = ""
    · rw [normalizeLabelsAux, if_pos h1] at hx
      exact ih seen x hx
    · by_cases h2 : pyLower (pyStrip l) ∈ seen
      · rw [normalizeLabelsAux, if_neg h1, if_pos h2] at hx
        exact ih seen x hx
      · rw [normalizeLabelsAux, if_neg h1, if_neg h2] at hx
        rcases List.mem_cons.mp hx with hx | hx
        · subst hx
          exact ⟨h1, pyStrip_idem l, h2⟩
        · obtain ⟨hne, hstrip, hmem⟩ := ih _ x hx
          refine ⟨hne, hstrip, fun hc => hmem (List.mem_cons_of_mem _ hc)⟩

theorem normalizeLabelsAux_pairwise (seen : List String) (xs : List String) :
    (normalizeLabelsAux seen xs).Pairwise (fun a b => pyLower a ≠ pyLower b) := by
  induction xs generalizing seen with
  | nil => simp [normalizeLabelsAux]
  | cons l ls ih =>
    by_cases h1 : pyStrip l = ""
    · rw [normalizeLabelsAux, if_pos h1]; exact ih seen
    · by_cases h2 : pyLower (pyStrip l) ∈ seen
      · rw [normalizeLabelsAux, if_neg h1, if_pos h2]; exact ih seen
      · rw [normalizeLabelsAux, if_neg h1, if_neg h2]
        refine List.Pairwise.cons ?_ (ih _)
        intro y hy hc
        obtain ⟨-, -, hmem⟩ := normalizeLabelsAux_mem _ _ y hy
        exact hmem (by rw [← hc]; exact List.mem_cons_self _ _)

theorem normalizeLabelsAux_sublist (seen : List String) (xs : List String) :
    (normalizeLabelsAux seen xs).Sublist (xs.map pyStrip) := by
  induction xs generalizing seen with
  | nil => simp [normalizeLabelsAux]
  | cons l ls ih =>
    by_cases h1 : pyStrip l = ""
    · rw [normalizeLabelsAux, if_pos h1]
      exact (ih seen).cons _
    · by_cases h2 : pyLower (pyStrip l) ∈ seen
      · rw [normalizeLabelsAux, if_neg h1, if_pos h2]
        exact (ih seen).cons _
      · rw [normalizeLabelsAux, if_neg h1, if_neg h2]
        exact (ih _).cons₂ _

theorem dedupKeepFirst_mem (seen : List SystemLabel) (xs : List SystemLabel) :
    ∀ x ∈ dedupKeepFirst seen xs, x ∈ xs ∧ x ∉ seen := by
  induction xs generalizing seen with
  | nil => simp [dedupKeepFirst]
  | cons a t ih =>
    intro x hx
    by_cases h : a ∈ seen
    · rw [dedupKeepFirst, if_pos h] at hx
      obtain ⟨h1, h2⟩ := ih seen x hx
      exact ⟨List.mem_cons_of_mem _ h1, h2⟩
    · rw [dedupKeepFirst, if_neg h] at hx
      rcases List.mem_cons.mp hx with hx | hx
      · subst hx; exact ⟨List.mem_cons_self _ _, h⟩
      · obtain ⟨h1, h2⟩ := ih _ x hx
        exact ⟨List.mem_cons_of_mem _ h1,
          fun hc => h2 (List.mem_cons_of_mem _ hc)⟩

theorem dedupKeepFirst_nodup (seen : List SystemLabel) (xs : List SystemLabel) :
    (dedupKeepFirst seen xs).Nodup := by
  induction xs generalizing seen with
  | nil => simp [dedupKeepFirst]
  | cons a t ih =>
    by_cases h : a ∈ seen
    · rw [dedupKeepFirst, if_pos h]; exact ih seen
    · rw [dedupKeepFirst, if_neg h]
      refine List.Pairwise.cons ?_ (ih _)
      intro y hy hc
      obtain ⟨-, h2⟩ := dedupKeepFirst_mem _ _ y hy
      exact h2 (by rw [← hc]; exact List.mem_cons_self _ _)

theorem dedupKeepFirst_sublist (seen : List SystemLabel) (xs : List SystemLabel) :
    (dedupKeepFirst seen xs).Sublist xs := by
  induction xs generalizing seen with
  | nil => simp [dedupKeepFirst]
  | cons a t ih =>
    by_cases h : a ∈ seen
    · rw [dedupKeepFirst, if_pos h]
      exact (ih seen).cons _
    · rw [dedupKeepFirst, if_neg h]
      exact (ih _).cons₂ _

theorem dedupKeepFirst_mem_of (seen : List SystemLabel) (xs : List SystemLabel)
    (x : SystemLabel) (hx : x ∈ xs) (hs : x ∉ seen) : x ∈ dedupKeepFirst seen xs := by
  induction xs generalizing seen with
  | nil => simp at hx
  | cons a t ih =>
    by_cases h : a ∈ seen
    · rw [dedupKeepFirst, if_pos h]
      rcases List.mem_cons.mp hx with hx | hx
      · exact absurd (hx ▸ h) hs
      · exact ih seen hx hs
    · rw [dedupKeepFirst, if_neg h]
      by_cases hxa : x = a
      · exact hxa ▸ List.mem_cons_self _ _
      · rcases List.mem_cons.mp hx with hx | hx
        · exact absurd hx hxa
        · refine List.mem_cons_of_mem _ (ih _ hx ?_)
          intro hc
          rcases List.mem_cons.mp hc with hc | hc
          · exact hxa hc
          · exact hs hc

end LabelLemmas

section MapMLemmas

variable {α β : Type _}

theorem mapMExcept_length (f : α → Except PyErr β) (xs : List α) (ys : List β)
    (h : mapMExcept f xs = .ok ys) : ys.length = xs.length := by
  induction xs generalizing ys with
  | nil => simp [mapMExcept] at h; simp [← h]
  | cons x t ih =>
    rw [mapMExcept] at h
    cases hfx : f x with
    | error e => rw [hfx] at h; exact absurd h (by simp)
    | ok y =>
      rw [hfx] at h
      cases hrest : mapMExcept f t with
      | error e => rw [hrest] at h; exact absurd h (by simp)
      | ok ys' =>
        rw [hrest] at h
        simp at h
        subst h
        simp [ih ys' hrest]

theorem mapMExcept_congr_ok (f : α → Except PyErr β) (g : α → β) (xs : List α)
    (h : ∀ x ∈ xs, f x = .ok (g x)) : mapMExcept f xs = .ok (xs.map g) := by
  induction xs with
  | nil => rfl
  | cons x t ih =>
    rw [mapMExcept, h x (List.mem_cons_self _ _), ih (fun y hy => h y (List.mem_cons_of_mem _ hy))]
    rfl

theorem mapMExcept_exists_ok (f : α → Except PyErr β) (xs : List α)
    (h : ∀ x ∈ xs, ∃ y, f x = .ok y) : ∃ ys, mapMExcept f xs = .ok ys := by
  induction xs with
  | nil => exact ⟨[], rfl⟩
  | cons x t ih =>
    obtain ⟨y, hy⟩ := h x (List.mem_cons_self _ _)
    obtain ⟨ys, hys⟩ := ih (fun z hz => h z (List.mem_cons_of_mem _ hz))
    exact ⟨y :: ys, by rw [mapMExcept, hy, hys]⟩

theorem mapMExcept_mem_ok (f : α → Except PyErr β) (xs : List α) (ys : List β)
    (h : mapMExcept f xs = .ok ys) (x : α) (hx : x ∈ xs) : ∃ y ∈ ys, f x = .ok y := by
  induction xs generalizing ys with
  | nil => simp at hx
  | cons a t ih =>
    rw [mapMExcept] at h
    cases hfa : f a with
    | error e => rw [hfa] at h; exact absurd h (by simp)
    | ok y =>
      rw [hfa] at h
      cases hrest : mapMExcept f t with
      | error e => rw [hrest] at h; exact absurd h (by simp)
      | ok ys' =>
        rw [hrest] at h
        simp at h
        subst h
        rcases List.mem_cons.mp hx with hx | hx
        · exact ⟨y, List.mem_cons_self _ _, hx ▸ hfa⟩
        · obtain ⟨y2, hy2, hfy2⟩ := ih ys' hrest hx
          exact ⟨y2, List.mem_cons_of_mem _ hy2, hfy2⟩

end MapMLemmas

end Momento

namespace Momento

/-! ### Round-trip of `model_dump(mode="json")` through `model_validate` -/

section RoundtripLemmas

theorem exc_bind_ok {α β : Type _} (x : α) (f : α → Except PyErr β) :
    (Except.ok x >>= f) = f x := rfl

theorem exc_map_ok {α β : Type _} (f : α → β) (x : α) :
    Except.map f (.ok x : Except PyErr α) = .ok (f x) := rfl

theorem vOptStr_dump (o : Option String) : vOptStr (some (jsonOfOptStr o)) = .ok o := by
  cases o <;> rfl

theorem vUUID_dump (d : UUID) (u : UUID) (h : u.val ≠ "") :
    vUUID d (some (.str u.val)) = .ok u := by
  simp [vUUID, h]

theorem vDateTime_dump (d t : DateTime) : vDateTime d (some (.str t.iso)) = .ok t := rfl

theorem mapMExcept_map_roundtrip {α β : Type _} (f : β → Except PyErr α) (g : α → β)
    (xs : List α) (h : ∀ x ∈ xs, f (g x) = .ok x) : mapMExcept f (xs.map g) = .ok xs := by
  induction xs with
  | nil => rfl
  | cons x t ih =>
    simp only [List.map_cons, mapMExcept, h x (List.mem_cons_self _ _),
      ih (fun y hy => h y (List.mem_cons_of_mem _ hy))]

theorem contentBlockValidate_dump (cb : ContentBlock) (h : cb.validB = true) :
    contentBlockValidate (contentBlockDump cb) = .ok cb := by
  have hb : cb.body ≠ "" := by simpa [ContentBlock.validB] using h
  cases cb with
  | mk format body metadata =>
    cases format <;>
      simp [contentBlockDump, contentBlockValidate, jget, vReqStr1, vMeta, vFormat,
        ContentFormat.fromStr, ContentFormat.toStr, hb] <;> rfl

theorem mediaAttachmentValidate_dump (a : MediaAttachment) (h : a.validB = true) :
    mediaAttachmentValidate (mediaAttachmentDump a) = .ok a := by
  cases a with
  | mk uri media_type title description metadata =>
    simp only [MediaAttachment.validB, Bool.and_eq_true, decide_eq_true_eq] at h
    obtain ⟨hu, hm⟩ := h
    simp [mediaAttachmentDump, mediaAttachmentValidate, jget, vReqStr1, vMeta,
      vOptStr_dump, hu, hm]
    rfl

theorem embeddingVectorValidate_dump (v : EmbeddingVector) (h : v.validB = true) :
    embeddingVectorValidate (embeddingVectorDump v) = .ok v := by
  cases v with
  | mk model vector created_at metadata =>
    simp only [EmbeddingVector.validB, Bool.and_eq_true, decide_eq_true_eq,
      Bool.not_eq_true'] at h
    obtain ⟨hm, hv⟩ := h
    have hv2 : vector ≠ [] := by simpa using hv
    simp [embeddingVectorDump, embeddingVectorValidate, jget, vReqStr1, vMeta, vVector,
      vDateTime_dump, hm, hv2,
      mapMExcept_map_roundtrip vNumElem Json.num vector (fun x _ => rfl)]
    rfl

theorem vConfidence_dump (c : Option Rat)
    (h : ∀ q, c = some q → 0 ≤ q ∧ q ≤ 1) :
    vConfidence (some (jsonOfOptNum c)) = .ok c := by
  cases c with
  | none => rfl
  | some q => simp [vConfidence, jsonOfOptNum, h q rfl]

theorem observationValidate_dump (o : Observation) (h : o.validB = true) :
    observationValidate (observationDump o) = .ok o := by
  cases o with
  | mk id text source created_at confidence metadata =>
    simp only [Observation.validB, Bool.and_eq_true, decide_eq_true_eq] at h
    obtain ⟨⟨hid, ht⟩, hc⟩ := h
    have hc2 : ∀ q, confidence = some q → 0 ≤ q ∧ q ≤ 1 := by
      intro q hq
      rw [hq] at hc
      simp only [Bool.and_eq_true, decide_eq_true_eq] at hc
      exact hc
    simp [observationDump, observationValidate, jget, vReqStr1, vMeta, vUUID,
      vDateTime_dump, vOptStr_dump, hid, ht, vConfidence_dump confidence hc2]
    rfl

theorem entityValidate_dump (e : Entity) (h : e.validB = true) :
    entityValidate (.obj (entityDump e)) = .ok e := by
  unfold Entity.validB at h
  simp only [Bool.and_eq_true, decide_eq_true_eq] at h
  obtain ⟨⟨⟨⟨⟨⟨⟨hid, hlab⟩, hsys⟩, hcont⟩, hatt⟩, hemb⟩, hobs⟩, hguard⟩ := h
  have hLabels : vLabels (some (.arr (e.labels.map Json.str))) = .ok e.labels := by
    simp [vLabels, mapMExcept_map_roundtrip vStrElem Json.str e.labels (fun x _ => rfl),
      exc_map_ok, ← hlab]
  have hSys : vSystemLabels (some (.arr (e.system_labels.map (fun l => Json.str l.toStr)))) =
      .ok e.system_labels := by
    simp [vSystemLabels,
      mapMExcept_map_roundtrip vSysLabelElem (fun l => Json.str l.toStr) e.system_labels
        (fun x _ => by cases x <;> rfl),
      exc_map_ok, ← hsys]
  have hContent : vOptContent (some (jsonOfOpt contentBlockDump e.content)) = .ok e.content := by
    cases hcc : e.content with
    | none => rfl
    | some cb =>
      rw [hcc] at hcont
      show Except.map some (contentBlockValidate (contentBlockDump cb)) = .ok (some cb)
      rw [contentBlockValidate_dump cb hcont]
      rfl
  have hAtt : vAttachments (some (.arr (e.attachments.map mediaAttachmentDump))) =
      .ok e.attachments := by
    simp [vAttachments,
      mapMExcept_map_roundtrip mediaAttachmentValidate mediaAttachmentDump e.attachments
        (fun a ha => mediaAttachmentValidate_dump a (by
          simpa using List.all_eq_true.mp hatt a ha))]
  have hEmb : vOptEmbedding (some (jsonOfOpt embeddingVectorDump e.embedding)) =
      .ok e.embedding := by
    cases hee : e.embedding with
    | none => rfl
    | some v =>
      rw [hee] at hemb
      show Except.map some (embeddingVectorValidate (embeddingVectorDump v)) = .ok (some v)
      rw [embeddingVectorValidate_dump v hemb]
      rfl
  have hObs : vObservations (some (.arr (e.observations.map observationDump))) =
      .ok e.observations := by
    simp [vObservations,
      mapMExcept_map_roundtrip observationValidate observationDump e.observations
        (fun o ho => observationValidate_dump o (by
          simpa using List.all_eq_true.mp hobs o ho))]
  simp only [entityValidate, entityDump, jget]
  simp only [String.reduceEq, reduceIte]
  rw [vUUID_dump defaultUUID e.id hid]
  simp only [exc_bind_ok, vOptStr_dump, vDateTime_dump, hLabels, hSys, hContent, hAtt,
    hEmb, hObs, vMeta]
  simp only [Entity.is_entry] at hguard ⊢
  simp [hguard]
  intro h1 h2 h3 h4
  simp [h1, h2, h3, h4] at hguard

end RoundtripLemmas

end Momento

namespace Momento

theorem rs_str (k : String) (s : String) (hk : k ∉ JSON_FIELDS) :
    readProp (serializeProp (k, .str s)) = (k, .str s) := by
  simp [readProp, serializeProp, hk, nodeValOfScalar, jsonOfNodeVal, PyStr.text]

theorem rs_optStr (k : String) (o : Option String) (hk : k ∉ JSON_FIELDS) :
    readProp (serializeProp (k, jsonOfOptStr o)) = (k, jsonOfOptStr o) := by
  cases o with
  | none => simp [readProp, serializeProp, hk, jsonOfOptStr, nodeValOfScalar, jsonOfNodeVal]
  | some s => exact rs_str k s hk

theorem rs_strArr (k : String) (xs : List String) (hk : k ∉ JSON_FIELDS) :
    readProp (serializeProp (k, .arr (xs.map Json.str))) = (k, .arr (xs.map Json.str)) := by
  simp [readProp, serializeProp, hk, nodeValOfScalar, jsonOfNodeVal, List.map_map,
    Function.comp]

theorem rs_sysLabels (k : String) (sls : List SystemLabel) (hk : k ∉ JSON_FIELDS) :
    readProp (serializeProp (k, .arr (sls.map (fun l => Json.str l.toStr)))) =
      (k, .arr (sls.map (fun l => Json.str l.toStr))) := by
  simp [readProp, serializeProp, hk, nodeValOfScalar, jsonOfNodeVal, List.map_map,
    Function.comp]

theorem rs_json_obj (k : String) (kvs : List (String × Json)) (hk : k ∈ JSON_FIELDS) :
    readProp (serializeProp (k, .obj kvs)) = (k, .obj kvs) := by
  simp [readProp, serializeProp, hk, jsonLoads, PyStr.text]

theorem rs_json_arr (k : String) (ys : List Json) (hk : k ∈ JSON_FIELDS) :
    readProp (serializeProp (k, .arr ys)) = (k, .arr ys) := by
  simp [readProp, serializeProp, hk, jsonLoads, PyStr.text]

theorem rs_json_optContent (k : String) (o : Option ContentBlock) (hk : k ∈ JSON_FIELDS) :
    readProp (serializeProp (k, jsonOfOpt contentBlockDump o)) =
      (k, jsonOfOpt contentBlockDump o) := by
  cases o with
  | none => simp [readProp, serializeProp, hk, jsonOfOpt, jsonOfNodeVal]
  | some cb =>
    show readProp (serializeProp (k, contentBlockDump cb)) = (k, contentBlockDump cb)
    rw [contentBlockDump]
    exact rs_json_obj k _ hk

theorem rs_json_optEmbedding (k : String) (o : Option EmbeddingVector) (hk : k ∈ JSON_FIELDS) :
    readProp (serializeProp (k, jsonOfOpt embeddingVectorDump o)) =
      (k, jsonOfOpt embeddingVectorDump o) := by
  cases o with
  | none => simp [readProp, serializeProp, hk, jsonOfOpt, jsonOfNodeVal]
  | some v =>
    show readProp (serializeProp (k, embeddingVectorDump v)) = (k, embeddingVectorDump v)
    rw [embeddingVectorDump]
    exact rs_json_obj k _ hk

/-- Writing a dumped entity to node properties and reading the properties
back yields the dump unchanged (for every field, the store transformation
is inverted by the read transformation). -/
theorem serialize_readback (e : Entity) :
    (serializeEntity e).map readProp = entityDump e := by
  simp only [serializeEntity, List.map_map, entityDump, List.map_cons, List.map_nil,
    Function.comp]
  rw [rs_str "id" _ (by decide), rs_optStr "external_id" _ (by decide),
    rs_optStr "name" _ (by decide), rs_optStr "summary" _ (by decide),
    rs_strArr "labels" _ (by decide), rs_sysLabels "system_labels" _ (by decide),
    rs_json_optContent "content" _ (by decide), rs_json_arr "attachments" _ (by decide),
    rs_json_optEmbedding "embedding" _ (by decide), rs_json_obj "metadata" _ (by decide),
    rs_json_arr "observations" _ (by decide), rs_str "created_at" _ (by decide),
    rs_str "updated_at" _ (by decide)]


/-- The storage round-trip on a single node: `_node_to_entity` inverts
`_serialize_entity` on valid entities. -/
theorem nodeToEntity_serialize (e : Entity) (h : e.validB = true) :
    nodeToEntity (serializeEntity e) = .ok e := by
  unfold nodeToEntity
  rw [serialize_readback]
  exact entityValidate_dump e h

end Momento

namespace Momento

section StoreLemmas

theorem serializeEntity_pid (e : Entity) : pidOf (serializeEntity e) = some e.id.val := rfl

theorem mergeSetNode_edges (st : Store) (p : List (String × NodeVal)) :
    (mergeSetNode st p).edges = st.edges := by
  unfold mergeSetNode
  simp only []
  split <;> rfl

theorem newNode_idStr (props : List (String × NodeVal)) (labels : List String) :
    NodeRec.idStr { props := props, nodeLabels := labels } = pidOf props := rfl

theorem find_map_replace (nodes : List NodeRec) (props : List (String × NodeVal))
    (idv : String) (hpid : pidOf props = some idv)
    (hex : ∃ n ∈ nodes, n.idStr = some idv) :
    ∃ n, (nodes.map (fun n =>
        if n.idStr = some (idv : String) then
          { props := props, nodeLabels := addLabels n.nodeLabels (systemLabelStrings props) }
        else n)).find? (fun n => n.idStr = some idv) = some n ∧ n.props = props := by
  induction nodes with
  | nil => simp at hex
  | cons a t ih =>
    by_cases ha : a.idStr = some idv
    · refine ⟨{ props := props, nodeLabels := addLabels a.nodeLabels (systemLabelStrings props) },
        ?_, rfl⟩
      rw [List.map_cons, if_pos ha]
      apply List.find?_cons_of_pos
      simp [NodeRec.idStr, hpid]
    · obtain ⟨n0, hn0mem, hn0⟩ := hex
      rcases List.mem_cons.mp hn0mem with hh | hh
      · exact absurd (hh ▸ hn0) ha
      · obtain ⟨n, hfind, hp⟩ := ih ⟨n0, hh, hn0⟩
        refine ⟨n, ?_, hp⟩
        rw [List.map_cons, if_neg ha, List.find?_cons_of_neg]
        · exact hfind
        · simpa using ha

theorem find_append_new (nodes : List NodeRec) (props : List (String × NodeVal))
    (idv : String) (hpid : pidOf props = some idv) (labels : List String)
    (hnone : ∀ n ∈ nodes, ¬ n.idStr = some idv) :
    ∃ n, (nodes ++ [({ props := props, nodeLabels := labels } : NodeRec)]).find?
        (fun n => n.idStr = some idv) = some n ∧ n.props = props := by
  induction nodes with
  | nil =>
    refine ⟨{ props := props, nodeLabels := labels }, ?_, rfl⟩
    rw [List.nil_append]
    apply List.find?_cons_of_pos
    simp [NodeRec.idStr, hpid]
  | cons a t ih =>
    have ha := hnone a (List.mem_cons_self _ _)
    obtain ⟨n, hfind, hp⟩ := ih (fun n hn => hnone n (List.mem_cons_of_mem _ hn))
    refine ⟨n, ?_, hp⟩
    rw [List.cons_append, List.find?_cons_of_neg]
    · exact hfind
    · simpa using ha

theorem findNode_mergeSetNode_self (st : Store) (props : List (String × NodeVal))
    (idv : String) (hpid : pidOf props = some idv) :
    ∃ n, findNode (mergeSetNode st props) idv = some n ∧ n.props = props := by
  unfold mergeSetNode findNode
  simp only [hpid]
  by_cases hany : (st.nodes.any fun n => decide (n.idStr = some idv ∧ some idv ≠ none)) = true
  · rw [if_pos hany]
    simp only []
    apply find_map_replace st.nodes props idv hpid
    obtain ⟨n0, hmem, hcond⟩ := List.any_eq_true.mp hany
    exact ⟨n0, hmem, (of_decide_eq_true hcond).1⟩
  · rw [if_neg hany]
    simp only []
    apply find_append_new st.nodes props idv hpid
    intro n hn hc
    exact hany (List.any_eq_true.mpr ⟨n, hn, decide_eq_true (by simp [hc])⟩)


theorem find?_map_of_test {α : Type _} (f : α → α) (p : α → Bool) (l : List α)
    (hp : ∀ a, p (f a) = p a) (hid : ∀ a, p a = true → f a = a) :
    (l.map f).find? p = l.find? p := by
  induction l with
  | nil => rfl
  | cons a t ih =>
    rw [List.map_cons]
    by_cases ha : p a
    · rw [List.find?_cons_of_pos _ (by rw [hp]; exact ha), List.find?_cons_of_pos _ ha,
        hid a ha]
    · rw [List.find?_cons_of_neg _ (by rw [hp]; simpa using ha),
        List.find?_cons_of_neg _ (by simpa using ha)]
      exact ih

theorem find?_append_neg {α : Type _} (l : List α) (x : α) (p : α → Bool)
    (hx : p x = false) : (l ++ [x]).find? p = l.find? p := by
  induction l with
  | nil => simp [List.find?, hx]
  | cons a t ih =>
    by_cases ha : p a
    · rw [List.cons_append, List.find?_cons_of_pos _ ha, List.find?_cons_of_pos _ ha]
    · rw [List.cons_append, List.find?_cons_of_neg _ (by simpa using ha),
        List.find?_cons_of_neg _ (by simpa using ha)]
      exact ih

/-- Merging a payload with a different id leaves lookups of `idv` alone. -/
theorem findNode_mergeSetNode_other (st : Store) (props : List (String × NodeVal))
    (idv : String) (hne : pidOf props ≠ some idv) :
    findNode (mergeSetNode st props) idv = findNode st idv := by
  unfold mergeSetNode findNode
  simp only []
  split
  · apply find?_map_of_test
    · intro a
      by_cases ha : a.idStr = pidOf props
      · rw [if_pos ha]
        have ha2 : pidOf a.props = pidOf props := ha
        simp [NodeRec.idStr, ha2, hne]
      · rw [if_neg ha]
    · intro a hpa
      rw [if_neg]
      intro hc
      rw [hc] at hpa
      exact hne (by simpa using hpa)
  · apply find?_append_neg
    simp [NodeRec.idStr, hne]

/-- Merging preserves the presence of any node lookup. -/
theorem findNode_mergeSetNode_isSome (st : Store) (props : List (String × NodeVal))
    (idv : String) (h : (findNode st idv).isSome = true) :
    (findNode (mergeSetNode st props) idv).isSome = true := by
  by_cases hp : pidOf props = some idv
  · obtain ⟨n, hn, -⟩ := findNode_mergeSetNode_self st props idv hp
    simp [hn]
  · rw [findNode_mergeSetNode_other st props idv hp]
    exact h

end StoreLemmas

end Momento

namespace Momento

section RepoLemmas

/-- `upsert` on a valid entity succeeds and returns the entity unchanged. -/
theorem entityUpsert_eq (st : Store) (e : Entity) (h : e.validB = true) :
    entityUpsert st e = .ok (mergeSetNode st (serializeEntity e), e) := by
  obtain ⟨n, hn, hp⟩ :=
    findNode_mergeSetNode_self st (serializeEntity e) e.id.val (serializeEntity_pid e)
  unfold entityUpsert
  simp only [hn, hp, nodeToEntity_serialize e h]
  rfl

/-- `get` right after an upsert returns the valid entity unchanged. -/
theorem entityGet_upsert (st : Store) (e : Entity) (h : e.validB = true) :
    entityGet (mergeSetNode st (serializeEntity e)) e.id.val = .ok (some e) := by
  obtain ⟨n, hn, hp⟩ :=
    findNode_mergeSetNode_self st (serializeEntity e) e.id.val (serializeEntity_pid e)
  unfold entityGet
  simp only [hn, hp, nodeToEntity_serialize e h]
  rfl

theorem findNode_foldl_merge_other (payloads : List (List (String × NodeVal)))
    (st : Store) (idv : String) (h : ∀ p ∈ payloads, pidOf p ≠ some idv) :
    findNode (payloads.foldl mergeSetNode st) idv = findNode st idv := by
  induction payloads generalizing st with
  | nil => rfl
  | cons p rest ih =>
    rw [List.foldl_cons, ih _ (fun q hq => h q (List.mem_cons_of_mem _ hq)),
      findNode_mergeSetNode_other st p idv (h p (List.mem_cons_self _ _))]

theorem foldl_merge_edges (payloads : List (List (String × NodeVal))) (st : Store) :
    (payloads.foldl mergeSetNode st).edges = st.edges := by
  induction payloads generalizing st with
  | nil => rfl
  | cons p rest ih => rw [List.foldl_cons, ih, mergeSetNode_edges]

theorem findNode_foldl_merge_isSome (payloads : List (List (String × NodeVal)))
    (st : Store) (idv : String) (h : (findNode st idv).isSome = true) :
    (findNode (payloads.foldl mergeSetNode st) idv).isSome = true := by
  induction payloads generalizing st with
  | nil => exact h
  | cons p rest ih =>
    rw [List.foldl_cons]
    exact ih _ (findNode_mergeSetNode_isSome st p idv h)

theorem entityBulkCreate_find (st : Store) (es : List Entity)
    (hnd : (es.map (fun e => e.id.val)).Nodup) :
    ∀ e ∈ es, ∃ n, findNode ((es.map serializeEntity).foldl mergeSetNode st) e.id.val = some n ∧
      n.props = serializeEntity e := by
  induction es generalizing st with
  | nil => simp
  | cons x rest ih =>
    rw [List.map_cons, List.nodup_cons] at hnd
    obtain ⟨hx, hrest⟩ := hnd
    intro e he
    rcases List.mem_cons.mp he with he | he
    · subst he
      rw [List.map_cons, List.foldl_cons,
        findNode_foldl_merge_other _ _ _ (fun p hp => ?_)]
      · exact findNode_mergeSetNode_self _ _ _ (serializeEntity_pid e)
      · obtain ⟨e2, he2, hpe2⟩ := List.mem_map.mp hp
        rw [← hpe2, serializeEntity_pid]
        intro hc
        exact hx (List.mem_map.mpr ⟨e2, he2, by simpa using hc⟩)
    · rw [List.map_cons, List.foldl_cons]
      exact ih _ hrest e he

/-- `bulk_create` on valid entities with distinct ids succeeds and returns
the entities unchanged. -/
theorem entityBulkCreate_eq (st : Store) (es : List Entity)
    (hv : ∀ e ∈ es, e.validB = true)
    (hnd : (es.map (fun e => e.id.val)).Nodup) :
    entityBulkCreate st es = .ok ((es.map serializeEntity).foldl mergeSetNode st, es) := by
  unfold entityBulkCreate
  have hmap : mapMExcept (fun e =>
      match findNode ((es.map serializeEntity).foldl mergeSetNode st) e.id.val with
      | none => Except.error (.validationError "node not returned")
      | some n => nodeToEntity n.props) es = .ok (es.map id) := by
    apply mapMExcept_congr_ok
    intro e he
    obtain ⟨n, hn, hp⟩ := entityBulkCreate_find st es hnd e he
    simp only [hn, hp, nodeToEntity_serialize e (hv e he), id]
  rw [List.map_id] at hmap
  simp only [hmap]
  rfl

end RepoLemmas

end Momento

namespace Momento

section RelationLemmas

theorem findNode_congr (st1 st2 : Store) (h : st1.nodes = st2.nodes) (idv : String) :
    findNode st1 idv = findNode st2 idv := by
  unfold findNode
  rw [h]

/-- `create` rejects a relation whose uppercased type fails the regex,
before any store interaction. -/
theorem relationCreate_invalid (st : Store) (rel : Relation)
    (h : reMatchUpperSnake (pyUpper rel.relationType) = false) :
    relationCreate st rel =
      .error (.validationError ("Invalid relation type " ++ rel.relationType)) := by
  unfold relationCreate
  simp [h]

/-- `create` on a type whose uppercased form matches the regex returns the
relation; the nodes are untouched and any new edge connects two matched
nodes. -/
theorem relationCreate_valid (st : Store) (rel : Relation)
    (h : reMatchUpperSnake (pyUpper rel.relationType) = true) :
    ∃ st', relationCreate st rel = .ok (st', rel) ∧ st'.nodes = st.nodes ∧
      ∀ ed ∈ st'.edges, ed ∈ st.edges ∨
        (ed = ⟨rel.source, pyUpper rel.relationType, rel.target⟩ ∧
          (findNode st ed.src).isSome ∧ (findNode st ed.tgt).isSome) := by
  simp only [relationCreate, h, Bool.true_eq_false, not_true_eq_false, if_false]
  refine ⟨_, rfl, ?_, ?_⟩
  · dsimp only
    split
    · split <;> rfl
    · rfl
  · dsimp only
    intro ed hed
    by_cases hb : (findNode st rel.source).isSome && (findNode st rel.target).isSome
    · rw [if_pos hb] at hed
      by_cases hmem : (⟨rel.source, pyUpper rel.relationType, rel.target⟩ : Edge) ∈ st.edges
      · rw [if_pos hmem] at hed
        exact Or.inl hed
      · rw [if_neg hmem] at hed
        rcases List.mem_append.mp hed with hed | hed
        · exact Or.inl hed
        · simp only [List.mem_singleton] at hed
          subst hed
          simp only [Bool.and_eq_true] at hb
          exact Or.inr ⟨rfl, hb.1, hb.2⟩
    · rw [if_neg hb] at hed
      exact Or.inl hed

theorem relationBulkCreate_spec (rels : List Relation) (st : Store) :
    (relationBulkCreate st rels).1.nodes = st.nodes ∧
    ∀ ed ∈ (relationBulkCreate st rels).1.edges, ed ∈ st.edges ∨
      ((findNode (relationBulkCreate st rels).1 ed.src).isSome ∧
        (findNode (relationBulkCreate st rels).1 ed.tgt).isSome) := by
  induction rels generalizing st with
  | nil => exact ⟨rfl, fun ed hed => Or.inl hed⟩
  | cons rel rest ih =>
    by_cases h : reMatchUpperSnake (pyUpper rel.relationType) = true
    · obtain ⟨st1, hcreate, hnodes, hedges⟩ := relationCreate_valid st rel h
      have hstep : relationBulkCreate st (rel :: rest) =
          ((relationBulkCreate st1 rest).1, rel :: (relationBulkCreate st1 rest).2) := by
        conv_lhs => rw [relationBulkCreate.eq_def]
        simp only [hcreate]
      obtain ⟨ihnodes, ihedges⟩ := ih st1
      rw [hstep]
      refine ⟨by rw [ihnodes, hnodes], ?_⟩
      intro ed hed
      rcases ihedges ed hed with hin | hsome
      · rcases hedges ed hin with hin2 | ⟨-, hs, ht⟩
        · exact Or.inl hin2
        · refine Or.inr ⟨?_, ?_⟩ <;>
            rw [findNode_congr _ st (by rw [ihnodes, hnodes])] <;> assumption
      · exact Or.inr hsome
    · have hstep : relationBulkCreate st (rel :: rest) = relationBulkCreate st rest := by
        conv_lhs => rw [relationBulkCreate.eq_def]
        simp only [relationCreate_invalid st rel (by simpa using h)]
      rw [hstep]
      exact ih st

end RelationLemmas

end Momento

namespace Momento

section RegexLemmas

theorem toUpper_fixed_of_upperSnake (c : Char) (h : isUpperSnakeChar c = true) :
    c.toUpper = c := by
  unfold Char.toUpper
  rw [if_neg]
  intro hc
  obtain ⟨h1, h2⟩ := hc
  simp only [isUpperSnakeChar, Bool.or_eq_true, Bool.and_eq_true, decide_eq_true_eq] at h
  rcases h with (⟨ha, hb⟩ | ⟨ha, hb⟩) | ha
  · have hb2 : c.toNat ≤ 90 := by
      rw [Char.le_def, UInt32.le_def] at hb
      simpa using hb
    omega
  · have hb2 : c.toNat ≤ 57 := by
      rw [Char.le_def, UInt32.le_def] at hb
      simpa using hb
    omega
  · subst ha
    exact absurd h1 (by decide)

theorem pyUpper_fixed_of_claimRegex (s : String) (h : matchesClaimRegex s = true) :
    pyUpper s = s := by
  unfold matchesClaimRegex at h
  simp only [Bool.and_eq_true, List.all_eq_true, decide_eq_true_eq] at h
  unfold pyUpper
  rw [List.map_congr_left (fun c hc => toUpper_fixed_of_upperSnake c (h.2 c hc))]
  simp

theorem reMatch_of_claimRegex (s : String) (h : matchesClaimRegex s = true) :
    reMatchUpperSnake s = true := by
  unfold reMatchUpperSnake
  have hne : s.data ≠ [] := by
    intro hc
    unfold matchesClaimRegex at h
    simp only [Bool.and_eq_true, decide_eq_true_eq] at h
    exact h.1 (by cases s; simp at hc; simp [hc])
  cases hl : s.data.getLast? with
  | none => simp [List.getLast?_eq_none_iff] at hl; exact absurd hl hne
  | some c =>
    have hmem : c ∈ s.data := by
      obtain ⟨hne2, hc⟩ :=
        List.mem_getLast?_eq_getLast (l := s.data) (x := c) (Option.mem_def.mpr hl)
      rw [hc]
      exact List.getLast_mem hne2
    have hcl : isUpperSnakeChar c = true := by
      unfold matchesClaimRegex at h
      simp only [Bool.and_eq_true, List.all_eq_true] at h
      exact h.2 c hmem
    have hcn : ¬ c = '\n' := by
      intro hc
      rw [hc] at hcl
      exact absurd hcl (by decide)
    simp only [hl, if_neg hcn]
    exact h

end RegexLemmas

end Momento

namespace Momento

/-- C2 counterexample: the relation type `"mentions"` does not match the
regex `^[A-Z0-9_]+$`, yet `RelationRepository.create` raises no validation
failure for it — the code uppercases the type before the regex check, so
the claim as stated is false. -/
theorem relationCreate_lowercase_counterexample :
    matchesClaimRegex "mentions" = false ∧
    relationCreate emptyStore ⟨"a", "b", "mentions"⟩ =
      .ok (emptyStore, ⟨"a", "b", "mentions"⟩) := by
  exact ⟨rfl, rfl⟩

/-- C2 amended: `create` raises a validation failure exactly for relation
types whose *uppercased* form fails Python's `re.match` of `^[A-Z0-9_]+$`,
and the raise happens before any store operation; every `relationType`
matching the regex as written is accepted (uppercasing fixes it). -/
theorem relationCreate_validation (st : Store) (rel : Relation) :
    (reMatchUpperSnake (pyUpper rel.relationType) = false →
      relationCreate st rel =
        .error (.validationError ("Invalid relation type " ++ rel.relationType))) ∧
    (reMatchUpperSnake (pyUpper rel.relationType) = true →
      ∃ st', relationCreate st rel = .ok (st', rel)) ∧
    (matchesClaimRegex rel.relationType = true →
      ∃ st', relationCreate st rel = .ok (st', rel)) := by
  refine ⟨relationCreate_invalid st rel, fun h => ?_, fun h => ?_⟩
  · obtain ⟨st', hc, -, -⟩ := relationCreate_valid st rel h
    exact ⟨st', hc⟩
  · have h2 : reMatchUpperSnake (pyUpper rel.relationType) = true := by
      rw [pyUpper_fixed_of_claimRegex _ h]
      exact reMatch_of_claimRegex _ h
    obtain ⟨st', hc, -, -⟩ := relationCreate_valid st rel h2
    exact ⟨st', hc⟩

/-- Closed instance of the amended C2 theorem: `"FOO; DELETE ALL"` is
rejected and `"MENTIONS"` is accepted. -/
theorem relationCreate_validation_witness :
    relationCreate emptyStore ⟨"a", "b", "FOO; DELETE ALL"⟩ =
      .error (.validationError ("Invalid relation type " ++ "FOO; DELETE ALL")) ∧
    ∃ st', relationCreate emptyStore ⟨"a", "b", "MENTIONS"⟩ = .ok (st', ⟨"a", "b", "MENTIONS"⟩) := by
  constructor
  · exact (relationCreate_validation emptyStore ⟨"a", "b", "FOO; DELETE ALL"⟩).1 (by decide)
  · exact (relationCreate_validation emptyStore ⟨"a", "b", "MENTIONS"⟩).2.2 (by decide)

end Momento

namespace Momento

/-- C6: for every list of system labels and free-form labels given to the
`Entity` constructor, the constructed entity has `ENTITY` among its system
labels (prepended when absent), duplicate-free system labels in insertion
order, and free-form labels with no case-insensitive duplicates, no blank
strings, each kept label trimmed, and original order preserved. -/
theorem entity_construct_label_invariants (id : UUID)
    (external_id name summary : Option String) (labels : List String)
    (system_labels : List SystemLabel) (content : Option ContentBlock)
    (attachments : List MediaAttachment) (embedding : Option EmbeddingVector)
    (metadata : List (String × Json)) (observations : List Observation)
    (created_at updated_at : DateTime) (e : Entity)
    (h : entityConstruct id external_id name summary labels system_labels content
      attachments embedding metadata observations created_at updated_at = .ok e) :
    SystemLabel.ENTITY ∈ e.system_labels ∧
    e.system_labels.Nodup ∧
    (SystemLabel.ENTITY ∈ system_labels → e.system_labels.Sublist system_labels) ∧
    (SystemLabel.ENTITY ∉ system_labels →
      ∃ t, e.system_labels = SystemLabel.ENTITY :: t ∧ t.Sublist system_labels) ∧
    (∀ x ∈ e.labels, x ≠ "" ∧ pyStrip x = x) ∧
    e.labels.Pairwise (fun a b => pyLower a ≠ pyLower b) ∧
    e.labels.Sublist (labels.map pyStrip) := by
  have hsys : e.system_labels = ensureSystemLabels system_labels := by
    simp only [entityConstruct] at h
    split at h
    · exact absurd h (by simp)
    · simp only [Except.ok.injEq] at h
      rw [← h]
  have hlab : e.labels = normalizeLabels labels := by
    simp only [entityConstruct] at h
    split at h
    · exact absurd h (by simp)
    · simp only [Except.ok.injEq] at h
      rw [← h]
  refine ⟨?_, ?_, ?_, ?_, ?_, ?_, ?_⟩
  · rw [hsys]
    unfold ensureSystemLabels
    by_cases hm : SystemLabel.ENTITY ∈ system_labels
    · rw [if_pos hm]
      exact dedupKeepFirst_mem_of [] system_labels _ hm (by simp)
    · rw [if_neg hm]
      exact List.mem_cons_self _ _
  · rw [hsys]
    unfold ensureSystemLabels
    by_cases hm : SystemLabel.ENTITY ∈ system_labels
    · rw [if_pos hm]
      exact dedupKeepFirst_nodup [] system_labels
    · rw [if_neg hm]
      refine List.Pairwise.cons ?_ (dedupKeepFirst_nodup [] system_labels)
      intro y hy hc
      obtain ⟨hmem, -⟩ := dedupKeepFirst_mem [] system_labels y hy
      exact hm (hc ▸ hmem)
  · intro hm
    rw [hsys]
    unfold ensureSystemLabels
    rw [if_pos hm]
    exact dedupKeepFirst_sublist [] system_labels
  · intro hm
    rw [hsys]
    unfold ensureSystemLabels
    rw [if_neg hm]
    exact ⟨_, rfl, dedupKeepFirst_sublist [] system_labels⟩
  · rw [hlab]
    intro x hx
    obtain ⟨h1, h2, -⟩ := normalizeLabelsAux_mem [] labels x hx
    exact ⟨h1, h2⟩
  · rw [hlab]
    exact normalizeLabelsAux_pairwise [] labels
  · rw [hlab]
    exact normalizeLabelsAux_sublist [] labels

/-- Closed instance of the C6 theorem on a concrete constructor call. -/
theorem entity_construct_label_invariants_witness :
    ∃ e, entityConstruct ⟨"e1"⟩ none none none ["  Fitness ", "fitness", "", "Running"]
        [.PERSON, .PERSON] none [] none [] [] ⟨"t"⟩ ⟨"t"⟩ = .ok e ∧
      (SystemLabel.ENTITY ∈ e.system_labels ∧
        e.system_labels.Nodup ∧
        (SystemLabel.ENTITY ∈ [SystemLabel.PERSON, SystemLabel.PERSON] →
          e.system_labels.Sublist [SystemLabel.PERSON, SystemLabel.PERSON]) ∧
        (SystemLabel.ENTITY ∉ [SystemLabel.PERSON, SystemLabel.PERSON] →
          ∃ t, e.system_labels = SystemLabel.ENTITY :: t ∧
            t.Sublist [SystemLabel.PERSON, SystemLabel.PERSON]) ∧
        (∀ x ∈ e.labels, x ≠ "" ∧ pyStrip x = x) ∧
        e.labels.Pairwise (fun a b => pyLower a ≠ pyLower b) ∧
        e.labels.Sublist (["  Fitness ", "fitness", "", "Running"].map pyStrip)) :=
  ⟨_, rfl, entity_construct_label_invariants _ _ _ _ _ _ _ _ _ _ _ _ _ _ rfl⟩

end Momento

namespace Momento

/-- C5: for every valid entity with non-trivial content, observations and
metadata, `upsert` followed by `get` returns an entity whose content,
observations and metadata equal the originals (the JSON-encoding of the
nested fields over the JSON-mode dump round-trips). -/
theorem upsert_then_get_roundtrip (st : Store) (e : Entity) (hv : e.validB = true)
    (hc : e.content.isSome = true) (ho : e.observations ≠ []) (hm : e.metadata ≠ []) :
    ∃ st' e', entityUpsert st e = .ok (st', e') ∧
      entityGet st' e.id.val = .ok (some e') ∧
      e'.content = e.content ∧ e'.observations = e.observations ∧
      e'.metadata = e.metadata :=
  ⟨_, e, entityUpsert_eq st e hv, entityGet_upsert st e hv, rfl, rfl, rfl⟩

/-- Closed instance of the C5 theorem on a concrete entity. -/
theorem upsert_then_get_roundtrip_witness :
    ∃ st' e', entityUpsert emptyStore fixtureEntity = .ok (st', e') ∧
      entityGet st' fixtureEntity.id.val = .ok (some e') ∧
      e'.content = fixtureEntity.content ∧
      e'.observations = fixtureEntity.observations ∧
      e'.metadata = fixtureEntity.metadata :=
  upsert_then_get_roundtrip emptyStore fixtureEntity (by rfl) (by rfl)
    (by simp [fixtureEntity]) (by simp [fixtureEntity])

end Momento

namespace Momento

/-- C1 evaluation at the failing input: a stored node whose `metadata`
property holds the non-JSON string `"not-json{"` makes `_node_to_entity` —
and therefore `get` — raise a validation error, instead of succeeding with
the field dropped to its empty default as the specification requires: the
decode failure is only logged, the raw string is left in the dict, and
`Entity.model_validate` rejects a string where a dict is expected. -/
theorem corrupt_json_field_fails_get :
    nodeToEntity corruptMetadataNode =
      .error (.validationError "Input should be a valid dictionary") ∧
    entityGet corruptStore "e-1" =
      .error (.validationError "Input should be a valid dictionary") :=
  ⟨rfl, rfl⟩

/-- C9: the `GET /graph/entities` response reports `total = len(items)`,
the size of the returned page (at most `limit`), not the number of
entities held in the store. -/
theorem listEntities_total_is_page_size (st : Store) (limit skip : Nat)
    (resp : EntityListResponse) (h : listEntities st limit skip = .ok resp) :
    resp.total = resp.items.length ∧ resp.items.length ≤ limit := by
  unfold listEntities at h
  cases he : entityList st limit skip with
  | error e =>
    rw [he] at h
    exact Except.noConfusion h
  | ok items =>
    rw [he, exc_bind_ok] at h
    simp only [Except.ok.injEq] at h
    subst h
    refine ⟨rfl, ?_⟩
    unfold entityList at he
    rw [mapMExcept_length _ _ _ he]
    exact List.length_take_le _ _

/-- Closed instance of the C9 theorem: a store holding two entities paged
with `limit=1` reports `total = 1`, not `2`. -/
theorem listEntities_total_is_page_size_witness :
    ∃ resp, listEntities ⟨[⟨serializeEntity fixtureEntity, ["Entity"]⟩,
        ⟨serializeEntity fixtureEntry, ["Entity"]⟩], []⟩ 1 0 = .ok resp ∧
      resp.total = resp.items.length ∧ resp.items.length ≤ 1 := by
  have h : ∃ resp, listEntities ⟨[⟨serializeEntity fixtureEntity, ["Entity"]⟩,
      ⟨serializeEntity fixtureEntry, ["Entity"]⟩], []⟩ 1 0 = .ok resp := ⟨_, rfl⟩
  obtain ⟨resp, hresp⟩ := h
  exact ⟨resp, hresp, listEntities_total_is_page_size _ _ _ _ hresp⟩

/-- C8: `_run_pipeline_safe` never re-raises to the caller; when the
pipeline raises, `on_complete` is not invoked; when the pipeline succeeds
and a callback is provided, it is invoked exactly once with the result. -/
theorem runPipelineSafe_isolation (run : Except PyErr ExtractionResult)
    (onComplete : Option (ExtractionResult → Except PyErr Unit)) :
    (runPipelineSafe run onComplete).raisedToCaller = none ∧
    (∀ e, run = .error e → (runPipelineSafe run onComplete).completions = []) ∧
    (∀ r f, run = .ok r → onComplete = some f →
      (runPipelineSafe run onComplete).completions = [r]) := by
  refine ⟨?_, ?_, ?_⟩
  · cases run with
    | error e => rfl
    | ok r =>
      cases onComplete with
      | none => rfl
      | some f =>
        unfold runPipelineSafe
        cases hfr : f r <;> simp [hfr]
  · intro e he
    subst he
    rfl
  · intro r f hr hf
    subst hr
    subst hf
    unfold runPipelineSafe
    cases hfr : f r <;> simp [hfr]

/-- Closed instance of the C8 theorem. -/
theorem runPipelineSafe_isolation_witness :
    (runPipelineSafe (.error (.providerError "boom"))
      (some (fun _ => .ok ()))).raisedToCaller = none ∧
    (runPipelineSafe (.error (.providerError "boom"))
      (some (fun _ => .ok ()))).completions = [] ∧
    (runPipelineSafe (.ok ⟨[], []⟩) (some (fun _ => .ok ()))).completions = [⟨[], []⟩] :=
  ⟨(runPipelineSafe_isolation _ _).1,
    (runPipelineSafe_isolation _ _).2.1 _ rfl,
    (runPipelineSafe_isolation _ _).2.2 _ _ rfl rfl⟩

/-- C10: when the pipeline succeeds but the provided `on_complete` callback
itself raises, the inline dispatcher catches and logs the exception and
returns normally — nothing propagates to the caller. -/
theorem dispatcher_inline_callback_failure (run : Except PyErr ExtractionResult)
    (r : ExtractionResult) (f : ExtractionResult → Except PyErr Unit) (e : PyErr)
    (h1 : run = .ok r) (h2 : f r = .error e) :
    dispatcherEnqueue false run (some f) =
      .inline { raisedToCaller := none, completions := [r], loggedError := some e } := by
  subst h1
  simp [dispatcherEnqueue, runPipelineSafe, h2]

/-- Closed instance of the C10 theorem. -/
theorem dispatcher_inline_callback_failure_witness :
    dispatcherEnqueue false (.ok ⟨[], []⟩)
        (some (fun _ => .error (.validationError "persist failed"))) =
      .inline { raisedToCaller := none, completions := [⟨[], []⟩],
                loggedError := some (.validationError "persist failed") } :=
  dispatcher_inline_callback_failure _ _ _ _ rfl rfl

end Momento

namespace Momento

/-- The local provider's extract never raises when the entry carries a
nonempty id (its only constructor checks are on nonempty strings). -/
theorem localExtract_ok (entry : Entity) (metadata : Option (List (String × Json)))
    (hid : entry.id.val ≠ "") : ∃ r, localExtract entry metadata = .ok r := by
  unfold localExtract
  by_cases ht : localText entry metadata = ""
  · exact ⟨⟨[], []⟩, by rw [if_pos ht]⟩
  · rw [if_neg ht]
    have hall : ∀ en ∈ (extractNamedEntities (localText entry metadata)).map
        (fun n => buildLocalEntity n entry), ∃ rel, buildLocalRelation entry en = .ok rel := by
      intro en hen
      obtain ⟨n, -, hbe⟩ := List.mem_map.mp hen
      rw [← hbe]
      unfold buildLocalRelation relationMk
      rw [if_neg]
      · exact ⟨_, rfl⟩
      · intro hc
        rcases hc with hc | hc | hc
        · exact hid hc
        · exact absurd hc (by simp [buildLocalEntity, defaultUUID])
        · exact absurd hc (by simp)
    obtain ⟨rels, hrels⟩ := mapMExcept_exists_ok _ _ hall
    refine ⟨⟨(extractNamedEntities (localText entry metadata)).map
      (fun n => buildLocalEntity n entry), rels⟩, ?_⟩
    simp only [hrels]

/-- C4: when the primary provider raises `ExtractionProviderError`, the
pipeline with fallback disabled notifies every observer of failure and
re-raises the same error, and with fallback enabled returns the local
fallback provider's result for the same entry and notifies every observer
of success. -/
theorem pipeline_fallback_policy (observers : List String)
    (primary : Entity → Option (List (String × Json)) → Except PyErr ExtractionResult)
    (entry : Entity) (metadata : Option (List (String × Json))) (m : String)
    (hp : primary entry metadata = .error (.providerError m))
    (hid : entry.id.val ≠ "") :
    ((pipelineRun false observers primary entry metadata).result =
        .error (.providerError m) ∧
      (pipelineRun false observers primary entry metadata).events =
        notifyFailure observers entry (.providerError m)) ∧
    (∃ r, localExtract entry metadata = .ok r ∧
      (pipelineRun true observers primary entry metadata).result = .ok r ∧
      (pipelineRun true observers primary entry metadata).events =
        notifySuccess observers entry r) := by
  obtain ⟨r, hr⟩ := localExtract_ok entry metadata hid
  refine ⟨⟨?_, ?_⟩, r, hr, ?_, ?_⟩ <;>
    simp [pipelineRun, hp, hr]

/-- Closed instance of the C4 theorem at a concrete entry and a primary
provider that raises. -/
theorem pipeline_fallback_policy_witness :
    ((pipelineRun false ["logging"] (fun _ _ => .error (.providerError "boom"))
        fixtureEntry none).result = .error (.providerError "boom") ∧
      (pipelineRun false ["logging"] (fun _ _ => .error (.providerError "boom"))
        fixtureEntry none).events =
        notifyFailure ["logging"] fixtureEntry (.providerError "boom")) ∧
    (∃ r, localExtract fixtureEntry none = .ok r ∧
      (pipelineRun true ["logging"] (fun _ _ => .error (.providerError "boom"))
        fixtureEntry none).result = .ok r ∧
      (pipelineRun true ["logging"] (fun _ _ => .error (.providerError "boom"))
        fixtureEntry none).events =
        notifySuccess ["logging"] fixtureEntry r) :=
  pipeline_fallback_policy ["logging"] _ fixtureEntry none "boom" rfl (by decide)

end Momento

namespace Momento

/-- A dict payload that fails validation fails the whole strict
comprehension. -/
theorem validateDictsStrict_error {α : Type _} (f : Json → Except PyErr α)
    (xs : List Json) (b : Json) (hb : b ∈ xs) (hbd : b.isDict = true)
    (hbf : (f b).isOk = false) : (validateDictsStrict f xs).isOk = false := by
  induction xs with
  | nil => simp at hb
  | cons x rest ih =>
    rw [validateDictsStrict]
    by_cases hxd : x.isDict = true
    · rw [if_pos hxd]
      cases hfx : f x with
      | error e => rfl
      | ok y =>
        have hbrest : b ∈ rest := by
          rcases List.mem_cons.mp hb with hb | hb
          · subst hb
            rw [hfx] at hbf
            simp [Except.isOk, Except.toBool] at hbf
          · exact hb
        cases hrest : validateDictsStrict f rest with
        | error e => rfl
        | ok ys =>
          rw [hrest] at ih
          have := ih hbrest
          simp [Except.isOk, Except.toBool] at this
    · rw [if_neg hxd]
      have hbrest : b ∈ rest := by
        rcases List.mem_cons.mp hb with hb | hb
        · subst hb
          exact absurd hbd hxd
        · exact hb
      exact ih hbrest

/-- C3 counterexample: a response whose `entities` list holds one valid
payload and one invalid dict payload is handled differently per provider —
the ollama parse skips the invalid payload and returns the valid entity,
but the openai and anthropic parses (and their extract tails) raise the
validation error, failing the whole call. -/
theorem provider_parse_skip_counterexample :
    (∃ good, ollamaParseResponse mixedEntitiesRaw = .ok ⟨[good], []⟩ ∧
      good.name = some "Good") ∧
    openaiParseResponse mixedEntitiesRaw =
      .error (.validationError "Input should be a valid list") ∧
    anthropicParseResponse mixedEntitiesRaw =
      .error (.validationError "Input should be a valid list") ∧
    openaiHandleParsed fixtureEntry none mixedEntitiesRaw =
      .error (.validationError "Input should be a valid list") ∧
    anthropicHandleParsed fixtureEntry none mixedEntitiesRaw =
      .error (.validationError "Input should be a valid list") :=
  ⟨⟨_, rfl, rfl⟩, rfl, rfl, rfl, rfl⟩

/-- C3 amended: an invalid entity payload is skipped individually only by
the ollama parse, which still returns every valid entity; in the openai and
anthropic parses a dict entity payload failing validation makes the whole
parse fail (only non-dict payloads are skipped). -/
theorem provider_parse_invalid_entity_handling (es rs : List Json)
    (j : Json) (e : Entity) (hj : j ∈ es) (hv : entityValidate j = .ok e)
    (jbad : Json) (hbm : jbad ∈ es) (hbd : jbad.isDict = true)
    (hbf : (entityValidate jbad).isOk = false) :
    (∃ ents rels, ollamaParseResponse
        (.enc (.obj [("entities", .arr es), ("relations", .arr rs)])) = .ok ⟨ents, rels⟩ ∧
      ents = es.filterMap (fun x => (entityValidate x).toOption) ∧ e ∈ ents) ∧
    (openaiParseResponse
      (.enc (.obj [("entities", .arr es), ("relations", .arr rs)]))).isOk = false ∧
    (anthropicParseResponse
      (.enc (.obj [("entities", .arr es), ("relations", .arr rs)]))).isOk = false := by
  have hmem : e ∈ es.filterMap (fun x => (entityValidate x).toOption) :=
    List.mem_filterMap.mpr ⟨j, hj, by rw [hv]; rfl⟩
  have hne : (es.filterMap (fun x => (entityValidate x).toOption)).isEmpty = false := by
    cases hfm : es.filterMap (fun x => (entityValidate x).toOption) with
    | nil => rw [hfm] at hmem; simp at hmem
    | cons a t => rfl
  refine ⟨?_, ?_, ?_⟩
  · refine ⟨es.filterMap (fun x => (entityValidate x).toOption),
      rs.filterMap (fun x => (relationValidate x).toOption), ?_, rfl, hmem⟩
    unfold ollamaParseResponse
    simp only [jsonLoads, jget, String.reduceEq, reduceIte, Option.getD, exc_bind_ok, hne,
      Bool.false_and, Bool.and_self]
    rfl
  · have herr := validateDictsStrict_error entityValidate es jbad hbm hbd hbf
    unfold openaiParseResponse
    cases hc : validateDictsStrict entityValidate es with
    | ok ys => rw [hc] at herr; simp [Except.isOk, Except.toBool] at herr
    | error err =>
      simp only [jsonLoads, jget, String.reduceEq, reduceIte, Option.getD, exc_bind_ok,
        comprehendPayload, hc]
      rfl
  · have herr := validateDictsStrict_error entityValidate es jbad hbm hbd hbf
    unfold anthropicParseResponse
    cases hc : validateDictsStrict entityValidate es with
    | ok ys => rw [hc] at herr; simp [Except.isOk, Except.toBool] at herr
    | error err =>
      simp only [jsonLoads, jget, String.reduceEq, reduceIte, Option.getD, exc_bind_ok,
        comprehendPayload, hc]
      rfl

/-- Closed instance of the amended C3 theorem at the mixed payload. -/
theorem provider_parse_invalid_entity_handling_witness :
    (∃ ents rels, ollamaParseResponse mixedEntitiesRaw = .ok ⟨ents, rels⟩ ∧
      ents = [Json.obj [("name", .str "Good")],
        Json.obj [("name", .str "Bad"), ("labels", .num 5)]].filterMap
          (fun x => (entityValidate x).toOption) ∧
      (match entityValidate (.obj [("name", .str "Good")]) with
        | .ok e => e
        | .error _ => fixtureEntry) ∈ ents) ∧
    (openaiParseResponse mixedEntitiesRaw).isOk = false ∧
    (anthropicParseResponse mixedEntitiesRaw).isOk = false :=
  provider_parse_invalid_entity_handling
    [Json.obj [("name", .str "Good")], Json.obj [("name", .str "Bad"), ("labels", .num 5)]]
    [] (Json.obj [("name", .str "Good")]) _ (List.mem_cons_self _ _) rfl
    (Json.obj [("name", .str "Bad"), ("labels", .num 5)])
    (List.mem_cons_of_mem _ (List.mem_cons_self _ _)) rfl rfl

end Momento

namespace Momento

section NameMapLemmas

theorem validB_id_ne (e : Entity) (h : e.validB = true) : e.id.val ≠ "" := by
  unfold Entity.validB at h
  simp only [Bool.and_eq_true, decide_eq_true_eq] at h
  exact h.1.1.1.1.1.1.1

theorem foldl_lookup_no_key (pairs : List (String × String)) (k : String)
    (acc : Option String) (h : ∀ kv ∈ pairs, kv.1 ≠ k) :
    pairs.foldl (fun acc kv => if kv.1 = k then some kv.2 else acc) acc = acc := by
  induction pairs generalizing acc with
  | nil => rfl
  | cons kv rest ih =>
    rw [List.foldl_cons, if_neg (h kv (List.mem_cons_self _ _))]
    exact ih acc (fun kv2 h2 => h kv2 (List.mem_cons_of_mem _ h2))

theorem lookupLast_none (pairs : List (String × String)) (k : String)
    (h : ∀ kv ∈ pairs, kv.1 ≠ k) : lookupLast pairs k = none :=
  foldl_lookup_no_key pairs k none h

theorem lookupLast_unique (pairs : List (String × String)) (k v : String)
    (hmem : (k, v) ∈ pairs) (huniq : (pairs.map Prod.fst).Nodup) :
    lookupLast pairs k = some v := by
  unfold lookupLast
  induction pairs with
  | nil => simp at hmem
  | cons kv rest ih =>
    rw [List.map_cons, List.nodup_cons] at huniq
    obtain ⟨hk1, hrest⟩ := huniq
    rcases List.mem_cons.mp hmem with hm | hm
    · rw [← hm] at hk1 ⊢
      rw [List.foldl_cons, if_pos rfl]
      apply foldl_lookup_no_key
      intro kv2 h2 hc
      exact hk1 (List.mem_map.mpr ⟨kv2, h2, hc⟩)
    · rw [List.foldl_cons]
      by_cases hkk : kv.1 = k
      · exfalso
        apply hk1
        rw [hkk]
        exact List.mem_map.mpr ⟨(k, v), hm, rfl⟩
      · rw [if_neg hkk]
        exact ih hm hrest

theorem foldl_lookup_some_mem (pairs : List (String × String)) (k v : String)
    (acc : Option String) (h : pairs.foldl
      (fun acc kv => if kv.1 = k then some kv.2 else acc) acc = some v) :
    (k, v) ∈ pairs ∨ acc = some v := by
  induction pairs generalizing acc with
  | nil => exact Or.inr h
  | cons kv rest ih =>
    rw [List.foldl_cons] at h
    by_cases hkk : kv.1 = k
    · rw [if_pos hkk] at h
      rcases ih _ h with hm | hacc
      · exact Or.inl (List.mem_cons_of_mem _ hm)
      · simp only [Option.some.injEq] at hacc
        refine Or.inl ?_
        have : kv = (k, v) := by
          cases kv
          simp only at hkk hacc
          rw [hkk, hacc]
        rw [← this]
        exact List.mem_cons_self _ _
    · rw [if_neg hkk] at h
      rcases ih _ h with hm | hacc
      · exact Or.inl (List.mem_cons_of_mem _ hm)
      · exact Or.inr hacc

theorem lookupLast_some_mem (pairs : List (String × String)) (k v : String)
    (h : lookupLast pairs k = some v) : (k, v) ∈ pairs := by
  rcases foldl_lookup_some_mem pairs k v none h with hm | hacc
  · exact hm
  · simp at hacc

theorem nameToIdMap_mem_intro (ents : List Entity) (en : Entity) (s : String)
    (hen : en ∈ ents) (hn : en.name = some s) (hs : s ≠ "") :
    (s, en.id.val) ∈ nameToIdMap ents := by
  refine List.mem_filterMap.mpr ⟨en, hen, ?_⟩
  rw [hn]
  simp [hs]

theorem nameToIdMap_mem_elim (ents : List Entity) (k v : String)
    (h : (k, v) ∈ nameToIdMap ents) :
    ∃ en ∈ ents, en.name = some k ∧ v = en.id.val ∧ k ≠ "" := by
  obtain ⟨en, hen, hkv⟩ := List.mem_filterMap.mp h
  cases hn : en.name with
  | none => rw [hn] at hkv; simp at hkv
  | some n =>
    rw [hn] at hkv
    dsimp only at hkv
    by_cases hne : n = ""
    · rw [if_pos hne] at hkv
      simp at hkv
    · rw [if_neg hne] at hkv
      simp only [Option.some.injEq, Prod.mk.injEq] at hkv
      exact ⟨en, hen, by rw [hn, hkv.1], hkv.2.symm, hkv.1 ▸ hne⟩

theorem nameToIdMap_keys (ents : List Entity) :
    (nameToIdMap ents).map Prod.fst =
      (ents.filterMap Entity.name).filter (fun n => n ≠ "") := by
  induction ents with
  | nil => rfl
  | cons en rest ih =>
    unfold nameToIdMap at ih ⊢
    rw [List.filterMap_cons, List.filterMap_cons]
    cases hn : en.name with
    | none => simpa using ih
    | some n =>
      by_cases hne : n = ""
      · simp only [hne, if_pos rfl, List.filter_cons]
        simpa using ih
      · simp only [if_neg hne, List.map_cons, List.filter_cons]
        simp only [hne, decide_not]
        simpa [hne] using congrArg (List.cons n) ih

end NameMapLemmas

end Momento

namespace Momento

/-- C7: the persistence callback bulk-upserts the extracted entities first,
rewrites each relation endpoint that equals the name of a saved extracted
entity to that entity's stored ID and leaves every other endpoint
(including the entry's ID) unchanged, and every persisted edge has both
endpoints as stored node IDs. -/
theorem persist_extraction_endpoint_resolution (st : Store)
    (result : ExtractionResult) (entryId : String)
    (hentry : (findNode st entryId).isSome = true)
    (hval : ∀ en ∈ result.entities, en.validB = true)
    (hnd : (result.entities.map (fun e => e.id.val)).Nodup)
    (hnames : (result.entities.filterMap Entity.name).Nodup)
    (hrel : ∀ r ∈ result.relations,
      (r.source = entryId ∨ ∃ en ∈ result.entities, en.name = some r.source) ∧
      (r.target = entryId ∨ ∃ en ∈ result.entities, en.name = some r.target) ∧
      r.source ≠ "" ∧ r.target ≠ "" ∧ r.relationType ≠ "") :
    ∃ st', persistExtraction st result = .ok st' ∧
      (∀ r ∈ result.relations, ∀ en ∈ result.entities, en.name = some r.source →
        resolveEndpoint (nameToIdMap result.entities) r.source = en.id.val) ∧
      (∀ r ∈ result.relations, ∀ en ∈ result.entities, en.name = some r.target →
        resolveEndpoint (nameToIdMap result.entities) r.target = en.id.val) ∧
      (∀ s, (∀ en ∈ result.entities, en.name ≠ some s) →
        resolveEndpoint (nameToIdMap result.entities) s = s) ∧
      (∀ r ∈ result.relations,
        (findNode st' (resolveEndpoint (nameToIdMap result.entities) r.source)).isSome = true ∧
        (findNode st' (resolveEndpoint (nameToIdMap result.entities) r.target)).isSome = true) ∧
      (∀ ed ∈ st'.edges, ed ∈ st.edges ∨
        ((findNode st' ed.src).isSome = true ∧ (findNode st' ed.tgt).isSome = true)) := by
  have hkeys : ((nameToIdMap result.entities).map Prod.fst).Nodup := by
    rw [nameToIdMap_keys]
    exact hnames.filter _
  have hres_name : ∀ s en, en ∈ result.entities → en.name = some s → s ≠ "" →
      resolveEndpoint (nameToIdMap result.entities) s = en.id.val := by
    intro s en hen hns hs
    unfold resolveEndpoint
    rw [lookupLast_unique _ _ _ (nameToIdMap_mem_intro _ _ _ hen hns hs) hkeys]
    rfl
  have hres_other : ∀ s, (∀ en ∈ result.entities, en.name ≠ some s) →
      resolveEndpoint (nameToIdMap result.entities) s = s := by
    intro s hno
    unfold resolveEndpoint
    rw [lookupLast_none]
    · rfl
    · intro kv hkv hc
      obtain ⟨en, hen, hname, -, -⟩ :=
        nameToIdMap_mem_elim _ kv.1 kv.2 (by rw [← Prod.mk.eta (p := kv)] at hkv; exact hkv)
      exact hno en hen (hc ▸ hname)
  have hres_ne : ∀ s, s ≠ "" → resolveEndpoint (nameToIdMap result.entities) s ≠ "" := by
    intro s hs
    unfold resolveEndpoint
    cases hl : lookupLast (nameToIdMap result.entities) s with
    | none => simpa using hs
    | some v =>
      obtain ⟨en, hen, -, hv, -⟩ :=
        nameToIdMap_mem_elim _ _ _ (lookupLast_some_mem _ _ _ hl)
      simp only [Option.getD_some]
      rw [hv]
      exact validB_id_ne en (hval en hen)
  have hstep1 : ∃ st1, (if result.entities.isEmpty then Except.ok (st, ([] : List Entity))
      else entityBulkCreate st result.entities) = .ok (st1, result.entities) ∧
      st1.edges = st.edges ∧
      (∀ en ∈ result.entities, (findNode st1 en.id.val).isSome = true) ∧
      (findNode st1 entryId).isSome = true := by
    by_cases hce : result.entities.isEmpty
    · have hnil : result.entities = [] := List.isEmpty_iff.mp hce
      refine ⟨st, ?_, rfl, ?_, hentry⟩
      · rw [if_pos hce, hnil]
      · intro en hen
        rw [hnil] at hen
        simp at hen
    · rw [if_neg hce, entityBulkCreate_eq st _ hval hnd]
      refine ⟨_, rfl, foldl_merge_edges _ _, ?_, findNode_foldl_merge_isSome _ _ _ hentry⟩
      intro en hen
      obtain ⟨n, hn, -⟩ := entityBulkCreate_find st _ hnd en hen
      simp [hn]
  obtain ⟨st1, hbind, hedges1, hfind1, hentry1⟩ := hstep1
  by_cases hcr : result.relations.isEmpty
  · have hrnil : result.relations = [] := List.isEmpty_iff.mp hcr
    refine ⟨st1, ?_, ?_, ?_, hres_other, ?_, ?_⟩
    · unfold persistExtraction
      rw [hbind]
      simp [hcr]
    · intro r hr
      rw [hrnil] at hr
      simp at hr
    · intro r hr
      rw [hrnil] at hr
      simp at hr
    · intro r hr
      rw [hrnil] at hr
      simp at hr
    · intro ed hed
      exact Or.inl (hedges1 ▸ hed)
  · have hmapped : ∃ mapped, mapMExcept (fun rel =>
        relationMk (resolveEndpoint (nameToIdMap result.entities) rel.source)
          (resolveEndpoint (nameToIdMap result.entities) rel.target) rel.relationType)
        result.relations = .ok mapped := by
      apply mapMExcept_exists_ok
      intro r hr
      obtain ⟨-, -, hs, ht, hty⟩ := hrel r hr
      unfold relationMk
      rw [if_neg]
      · exact ⟨_, rfl⟩
      · rintro (hc | hc | hc)
        · exact hres_ne _ hs hc
        · exact hres_ne _ ht hc
        · exact hty hc
    obtain ⟨mapped, hmapped⟩ := hmapped
    obtain ⟨hnodes', hedges'⟩ := relationBulkCreate_spec mapped st1
    refine ⟨(relationBulkCreate st1 mapped).1, ?_, ?_, ?_, hres_other, ?_, ?_⟩
    · unfold persistExtraction
      rw [hbind]
      simp [hcr, hmapped]
    · intro r hr en hen hname
      exact hres_name _ en hen hname (hrel r hr).2.2.1
    · intro r hr en hen hname
      exact hres_name _ en hen hname (hrel r hr).2.2.2.1
    · have hpres : ∀ s, s ≠ "" →
          (s = entryId ∨ ∃ en ∈ result.entities, en.name = some s) →
          (findNode (relationBulkCreate st1 mapped).1
            (resolveEndpoint (nameToIdMap result.entities) s)).isSome = true := by
        intro s hs hcase
        rw [findNode_congr _ st1 hnodes']
        unfold resolveEndpoint
        cases hl : lookupLast (nameToIdMap result.entities) s with
        | some v =>
          obtain ⟨en, hen, -, hv, -⟩ :=
            nameToIdMap_mem_elim _ _ _ (lookupLast_some_mem _ _ _ hl)
          simp only [Option.getD_some]
          rw [hv]
          exact hfind1 en hen
        | none =>
          simp only [Option.getD_none]
          rcases hcase with hc | ⟨en, hen, hname⟩
          · rw [hc]
            exact hentry1
          · exfalso
            have := lookupLast_unique _ s en.id.val
              (nameToIdMap_mem_intro _ _ _ hen hname hs) hkeys
            rw [hl] at this
            exact Option.noConfusion this
      intro r hr
      obtain ⟨hsrc, htgt, hs, ht, -⟩ := hrel r hr
      exact ⟨hpres r.source hs hsrc, hpres r.target ht htgt⟩
    · intro ed hed
      rcases hedges' ed hed with hin | hsome
      · exact Or.inl (hedges1 ▸ hin)
      · exact Or.inr hsome

end Momento

namespace Momento

/-- Closed instance of the C7 theorem: one extracted entity named `Yoli`
and one relation from the entry's ID to that name. -/
theorem persist_extraction_endpoint_resolution_witness :
    ∃ st', persistExtraction ⟨[⟨serializeEntity fixtureEntry, ["Entity"]⟩], []⟩
        ⟨[buildLocalEntity "Yoli" fixtureEntry], [⟨"entry-1", "Yoli", "MENTIONS"⟩]⟩ =
          .ok st' ∧
      (∀ r ∈ [(⟨"entry-1", "Yoli", "MENTIONS"⟩ : Relation)],
        ∀ en ∈ [buildLocalEntity "Yoli" fixtureEntry], en.name = some r.source →
          resolveEndpoint (nameToIdMap [buildLocalEntity "Yoli" fixtureEntry]) r.source =
            en.id.val) ∧
      (∀ r ∈ [(⟨"entry-1", "Yoli", "MENTIONS"⟩ : Relation)],
        ∀ en ∈ [buildLocalEntity "Yoli" fixtureEntry], en.name = some r.target →
          resolveEndpoint (nameToIdMap [buildLocalEntity "Yoli" fixtureEntry]) r.target =
            en.id.val) ∧
      (∀ s, (∀ en ∈ [buildLocalEntity "Yoli" fixtureEntry], en.name ≠ some s) →
        resolveEndpoint (nameToIdMap [buildLocalEntity "Yoli" fixtureEntry]) s = s) ∧
      (∀ r ∈ [(⟨"entry-1", "Yoli", "MENTIONS"⟩ : Relation)],
        (findNode st' (resolveEndpoint
          (nameToIdMap [buildLocalEntity "Yoli" fixtureEntry]) r.source)).isSome = true ∧
        (findNode st' (resolveEndpoint
          (nameToIdMap [buildLocalEntity "Yoli" fixtureEntry]) r.target)).isSome = true) ∧
      (∀ ed ∈ st'.edges, ed ∈ ([] : List Edge) ∨
        ((findNode st' ed.src).isSome = true ∧ (findNode st' ed.tgt).isSome = true)) := by
  have h := persist_extraction_endpoint_resolution
    ⟨[⟨serializeEntity fixtureEntry, ["Entity"]⟩], []⟩
    ⟨[buildLocalEntity "Yoli" fixtureEntry], [⟨"entry-1", "Yoli", "MENTIONS"⟩]⟩
    "entry-1" (by rfl)
    (by
      intro en hen
      rw [List.mem_singleton] at hen
      subst hen
      rfl)
    (by simp)
    (by decide)
    (by
      intro r hr
      rw [List.mem_singleton] at hr
      subst hr
      refine ⟨Or.inl rfl,
        Or.inr ⟨buildLocalEntity "Yoli" fixtureEntry, List.mem_singleton.mpr rfl, rfl⟩,
        by decide, by decide, by decide⟩)
  exact h

end Momento
